import Mathlib

/-!
# Threaded comments of the blogging platform

A shallow embedding of the comment subsystem:

* `blogging-backend/controllers/commentController.js`: `processComments` (the tree
  builder inside `getCommentsByPost`, with the error it throws for an author that is no longer
  stored) and its `isLiked` flag, `addComment`, `likeComment`, `unlikeComment`,
  `deleteComment`;
* `blogging-backend/models/Comment.js`: the validators of `content`, the counter hooks;
* `blogging-backend/routes/commentRoutes.js`: the path parameters of the routes;
* `blogging-backend/controllers/authController.js`: the `req.user` record built by `protect`;
* `src/components/CommentSection.js`: `renderComments`, the fetch effect;
* `src/components/PrivateRoute.js`: `PrivateRoute`;
* `src/redux/selectors/commentSelectors.js`: `selectCommentsByBlogId`;
* `src/redux/slices/commentSlice.js`: the reducer of the comment slice, the thunk payloads;
* `src/redux/slices/blogSlice.js`: `deleteBlog.fulfilled`.

Identifiers (`ObjectId`s and their hexadecimal strings) are abstracted to natural numbers.
Timestamps are milliseconds since the epoch.
-/

namespace Blog

/-! ## Backend data model (`models/Comment.js`) -/

/-- A Mongo `ObjectId`, abstracted to a number. An `ObjectId` is an object, hence truthy. -/
abbrev ObjectId := Nat

/-- One entry of `comment.likes`. -/
structure Like where
  userId : ObjectId
  createdAt : Int
  deriving DecidableEq, Repr

/-- A stored comment document. -/
structure Comment where
  _id : ObjectId
  postId : ObjectId
  userId : ObjectId
  parentId : Option ObjectId
  content : String
  likes : List Like
  likesCount : Nat
  createdAt : Int
  deriving DecidableEq, Repr

/-- A node of the response tree: the comment it is built from and its `replies`. The other
fields of a node (`isLiked`, `likesCount`, `author`, the string forms of ids and dates) are
computed from the comment alone, whatever the shape of the tree. -/
inductive CommentNode where
  | mk (comment : Comment) (replies : List CommentNode)
  deriving Repr

/-- The comment of a node. -/
def CommentNode.comment : CommentNode → Comment
  | .mk c _ => c

/-- The `replies` of a node. -/
def CommentNode.replies : CommentNode → List CommentNode
  | .mk _ rs => rs

/-- Results of the callbacks of one `Array.prototype.map`: the whole `map` completes only if
every callback completes. -/
def collect {α : Type} : List (Option α) → Option (List α)
  | [] => some []
  | none :: _ => none
  | some a :: rest => (collect rest).map (fun as => a :: as)

/-- What a call that came back produced: the value it returned, or the error it threw. -/
inductive Completion (α : Type) where
  | returned (value : α)
  | threw (error : String)
  deriving DecidableEq, Repr

/-- The value of a completed call passed through `f`; a thrown error stays as it is. -/
def Completion.map {α β : Type} (f : α → β) : Completion α → Completion β
  | .returned value => .returned (f value)
  | .threw error => .threw error

/-- The callbacks of one `Array.prototype.map`, run in order: the `map` stops at the first
callback that does not come back (`none`) or that throws, and returns the list of the values
when every callback returned. -/
def collectCalls {α : Type} : List (Option (Completion α)) → Option (Completion (List α))
  | [] => some (.returned [])
  | none :: _ => none
  | some (.threw error) :: _ => some (.threw error)
  | some (.returned a) :: rest =>
    (collectCalls rest).map (Completion.map (fun as => a :: as))

/-- The closure `processComments(parentId)` of `getCommentsByPost`
(commentController.js, lines 103-140) over the fetched `comments`.

`users` are the ids of the stored users: the query populates `comment.userId` (lines 79-83),
which is `null` for an author that is no longer stored, and `commentObj.userId._id` on line
124 then throws a `TypeError`, before the recursive call of line 137 is made.

The source recursion has no depth guard, so it is run on a call-depth budget: `none` means the
budget was exhausted (the call did not come back within that stack depth). Both sides of the
comparison on line 109 are the `toString()` of an `ObjectId`, or `null`. -/
def processComments (users : List ObjectId) (comments : List Comment) :
    Nat → Option ObjectId → Option (Completion (List CommentNode))
  | 0, _ => none
  | fuel + 1, parentId =>
    collectCalls ((comments.filter (fun comment => comment.parentId == parentId)).map
      (fun comment =>
        if users.contains comment.userId then
          (processComments users comments fuel (some comment._id)).map
            (Completion.map (CommentNode.mk comment))
        else some (.threw "TypeError")))

/-- The value of `topLevelComments` sent in the response (lines 143-148): the top-level call,
after which `replies` of every top-level node is recomputed by `processComments(comment._id)`.
An error thrown by any of these calls leaves the handler through its `catch`. -/
def topLevelComments (users : List ObjectId) (comments : List Comment) (fuel : Nat) :
    Option (Completion (List CommentNode)) :=
  match processComments users comments fuel none with
  | none => none
  | some (.threw error) => some (.threw error)
  | some (.returned tops) =>
    collectCalls (tops.map (fun node =>
      (processComments users comments fuel (some node.comment._id)).map
        (Completion.map (CommentNode.mk node.comment))))

/-- The status that `getCommentsByPost` answers for a post that was found, its author stored
(lines 150-175): 200 with the forest, and 500 from the `catch` when building the forest
threw. -/
def getCommentsStatus (users : List ObjectId) (comments : List Comment) (fuel : Nat) :
    Option Nat :=
  (topLevelComments users comments fuel).map (fun completion =>
    match completion with
    | .returned _ => 200
    | .threw _ => 500)

/-- The recursion of `processComments` on comments whose authors are all stored, where line
124 never throws: the companion of `processComments` without the error path, `none` when the
call-depth budget is exhausted. -/
def processPopulated (comments : List Comment) :
    Nat → Option ObjectId → Option (List CommentNode)
  | 0, _ => none
  | fuel + 1, parentId =>
    collect ((comments.filter (fun comment => comment.parentId == parentId)).map
      (fun comment =>
        (processPopulated comments fuel (some comment._id)).map (CommentNode.mk comment)))

mutual
/-- Number of nodes of a subtree: the node and all its nested replies. -/
def CommentNode.count : CommentNode → Nat
  | .mk _ rs => 1 + countNodes rs
/-- Number of nodes of a forest, nested replies included. -/
def countNodes : List CommentNode → Nat
  | [] => 0
  | n :: ns => n.count + countNodes ns
end

mutual
/-- The comments of a subtree in pre-order. -/
def CommentNode.flatten : CommentNode → List Comment
  | .mk c rs => c :: flattenNodes rs
/-- The comments of a forest in pre-order. -/
def flattenNodes : List CommentNode → List Comment
  | [] => []
  | n :: ns => n.flatten ++ flattenNodes ns
end

/-- The same forest cut off at call depth `fuel` instead of failing there: a total companion
of `processPopulated` used to reason about the value `processComments` returns. -/
def forest (comments : List Comment) : Nat → Option ObjectId → List CommentNode
  | 0, _ => []
  | fuel + 1, parentId =>
    (comments.filter (fun comment => comment.parentId == parentId)).map
      (fun comment => CommentNode.mk comment (forest comments fuel (some comment._id)))

/-- A reply chain hanging from `parentId`: the first comment names `parentId` as its parent
and every further comment names its predecessor. -/
def IsChainFrom : Option ObjectId → List Comment → Prop
  | _, [] => True
  | parentId, c :: rest => c.parentId = parentId ∧ IsChainFrom (some c._id) rest

/-- The single path in which each comment holds exactly the next one as its only reply. -/
def nestPath : List Comment → List CommentNode
  | [] => []
  | c :: rest => [CommentNode.mk c (nestPath rest)]

mutual
/-- Depth of a subtree: the number of nodes on its longest path downwards. -/
def CommentNode.depth : CommentNode → Nat
  | .mk _ rs => 1 + depthNodes rs
/-- Depth of a forest: the largest depth of its trees, `0` when it is empty. -/
def depthNodes : List CommentNode → Nat
  | [] => 0
  | n :: ns => max n.depth (depthNodes ns)
end

/-- The relation `Rooted comments parentId path`: `path` lists the ids met when walking from
`parentId` up the parent references until a top-level comment (whose `parentId` is `null`). -/
inductive Rooted (comments : List Comment) : Option ObjectId → List ObjectId → Prop
  | root : Rooted comments none []
  | step {parentId : Option ObjectId} {path : List ObjectId} {c : Comment} :
      Rooted comments parentId path → c ∈ comments → c.parentId = parentId →
      Rooted comments (some c._id) (c._id :: path)

/-! ## Backend: `likeComment` and `unlikeComment` -/

/-- A JavaScript value that carries an id: the hexadecimal string, or an `ObjectId` object
with that hexadecimal form. -/
inductive IdValue where
  | str (hex : ObjectId)
  | oid (id : ObjectId)
  deriving DecidableEq, Repr

/-- The `ObjectId` a value is cast to when it is stored in an `ObjectId` field. -/
def IdValue.toObjectId : IdValue → ObjectId
  | .str hex => hex
  | .oid id => id

/-- The comparison `s === v` for a string `s` (given by its hexadecimal content): strict
equality holds only for a string with the same content, never for an object. -/
def strictEqString (s : ObjectId) (v : IdValue) : Bool :=
  match v with
  | .str t => s == t
  | .oid _ => false

/-- A user document. -/
structure User where
  _id : ObjectId
  name : String
  email : String
  role : String
  username : String
  deriving DecidableEq, Repr

/-- The record `req.user`. -/
structure ReqUser where
  id : IdValue
  name : String
  email : String
  role : String
  username : String
  deriving DecidableEq, Repr

/-- The `req.user` attached by `protect` (authController.js, lines 109-116) for the user
document found for the token: `id` is `user._id`, the `ObjectId` itself. -/
def protect (user : User) : ReqUser :=
  { id := IdValue.oid user._id, name := user.name, email := user.email, role := user.role,
    username := user.username }

/-- A JSON response: the HTTP status, the `error` or `message` text, and the comment sent. -/
structure Response where
  status : Nat
  text : String
  comment : Option Comment
  deriving DecidableEq, Repr

/-- The query `Comment.findById(id)` on the stored comments. -/
def findById (db : List Comment) (id : ObjectId) : Option Comment :=
  db.find? (fun c => c._id == id)

/-- The write `comment.save()`: the stored document with that `_id` is replaced. -/
def save (db : List Comment) (comment : Comment) : List Comment :=
  db.map (fun c => if c._id == comment._id then comment else c)

/-- The handler `likeComment` (commentController.js, lines 179-224) on the stored comments.
`paramsId` is `req.params.id`, `none` when it is missing or not a valid `ObjectId` string;
`now` is the clock read for the new like. The result is the response and the stored comments
afterwards. -/
def likeComment (db : List Comment) (paramsId : Option ObjectId) (user : ReqUser) (now : Int) :
    Response × List Comment :=
  let userId := user.id
  match paramsId with
  | none => ({ status := 400, text := "Invalid comment ID", comment := none }, db)
  | some commentId =>
    match findById db commentId with
    | none => ({ status := 404, text := "Comment not found", comment := none }, db)
    | some comment =>
      let alreadyLiked := comment.likes.any (fun like => strictEqString like.userId userId)
      if alreadyLiked then
        ({ status := 400, text := "You have already liked this comment", comment := none }, db)
      else
        let likes := comment.likes ++ [{ userId := userId.toObjectId, createdAt := now }]
        let saved := { comment with likes := likes, likesCount := likes.length }
        ({ status := 200, text := "Comment liked successfully", comment := some saved },
          save db saved)

/-- The handler `unlikeComment` (commentController.js, lines 227-272), with the same
conventions as `likeComment`. -/
def unlikeComment (db : List Comment) (paramsId : Option ObjectId) (user : ReqUser) :
    Response × List Comment :=
  let userId := user.id
  match paramsId with
  | none => ({ status := 400, text := "Invalid comment ID", comment := none }, db)
  | some commentId =>
    match findById db commentId with
    | none => ({ status := 404, text := "Comment not found", comment := none }, db)
    | some comment =>
      match comment.likes.findIdx? (fun like => strictEqString like.userId userId) with
      | none =>
        ({ status := 400, text := "You have not liked this comment yet", comment := none },
          db)
      | some likeIndex =>
        let likes := comment.likes.eraseIdx likeIndex
        let saved := { comment with likes := likes, likesCount := likes.length }
        ({ status := 200, text := "Comment unliked successfully", comment := some saved },
          save db saved)

/-! ## Backend: `deleteComment`, `addComment` and the `isLiked` projection -/

/-- The handler `deleteComment` (commentController.js, lines 275-310), with the conventions of
`likeComment`: `comment.deleteOne()` removes the stored document. -/
def deleteComment (db : List Comment) (paramsId : Option ObjectId) (user : ReqUser) :
    Response × List Comment :=
  match paramsId with
  | none => ({ status := 400, text := "Invalid comment ID", comment := none }, db)
  | some id =>
    match findById db id with
    | none => ({ status := 404, text := "Comment not found", comment := none }, db)
    | some comment =>
      if !(strictEqString comment.userId user.id) && user.role != "admin" then
        ({ status := 403, text := "You are not authorized to delete this comment",
           comment := none }, db)
      else
        ({ status := 200, text := "Comment deleted successfully", comment := none },
          db.eraseP (fun c => c._id == comment._id))

/-- The flag `commentObj.isLiked` of the projection (lines 115-117). `userId` is
`req.user?.id`, `none` when no user is attached; `users` are the ids of the stored users, since
`like.userId` is populated and is `null` for a user that no longer exists. -/
def isLiked (users : List ObjectId) (comment : Comment) (userId : Option IdValue) : Bool :=
  match userId with
  | none => false
  | some v =>
    comment.likes.any (fun like => users.contains like.userId && strictEqString like.userId v)

/-- A blog post document, as far as comments use it. -/
structure BlogDoc where
  _id : ObjectId
  commentsCount : Int
  deriving DecidableEq, Repr

/-- The value of `req.body.content`. -/
inductive ContentValue where
  | missing
  | nonString
  | str (s : String)
  deriving DecidableEq, Repr

/-- The value of `req.body.parentId`: falsy, a valid `ObjectId` string, or a string that
`mongoose.Types.ObjectId` rejects. -/
inductive ParentValue where
  | absent
  | valid (id : ObjectId)
  | invalid
  deriving DecidableEq, Repr

/-- White space as removed by `String.prototype.trim`. -/
def isJsWhitespace (c : Char) : Bool :=
  [0x09, 0x0A, 0x0B, 0x0C, 0x0D, 0x20, 0xA0, 0x1680, 0x2028, 0x2029, 0x202F, 0x205F, 0x3000,
    0xFEFF].contains c.toNat || (0x2000 ≤ c.toNat && c.toNat ≤ 0x200A)

/-- The string method `trim()`. -/
def jsTrim (s : String) : String :=
  ⟨((s.data.dropWhile isJsWhitespace).reverse.dropWhile isJsWhitespace).reverse⟩

/-- The string property `length`: the number of UTF-16 code units. -/
def jsLength (s : String) : Nat :=
  (s.data.map (fun c => if 0x10000 ≤ c.toNat then 2 else 1)).sum

/-- The handler `addComment` (commentController.js, lines 6-59) on the stored blogs and
comments. `postId` is `req.body.postId`, `none` when missing or not a valid id; `newId` and
`now` are the id and the timestamp given to the new document. `newComment.save()` runs the
schema validators of `models/Comment.js` (`content`: `maxlength: 1000`); a validation error
and a failing `ObjectId` cast are caught by line 52 and answered 500. The counter update of
the post-save hook is not part of this state. -/
def addComment (blogs : List BlogDoc) (db : List Comment) (postId : Option ObjectId)
    (content : ContentValue) (parentId : ParentValue) (user : ReqUser) (newId : ObjectId)
    (now : Int) : Response × List Comment :=
  match postId with
  | none => ({ status := 400, text := "Invalid post ID", comment := none }, db)
  | some postId =>
    match content with
    | .missing => ({ status := 400, text := "Comment content is required", comment := none }, db)
    | .nonString =>
      ({ status := 400, text := "Comment content is required", comment := none }, db)
    | .str s =>
      if s = "" || jsLength (jsTrim s) = 0 then
        ({ status := 400, text := "Comment content is required", comment := none }, db)
      else if !(blogs.any (fun blog => blog._id == postId)) then
        ({ status := 404, text := "Blog post not found", comment := none }, db)
      else
        match parentId with
        | .invalid => ({ status := 500, text := "Failed to add comment", comment := none }, db)
        | parent =>
          if 1000 < jsLength (jsTrim s) then
            ({ status := 500, text := "Failed to add comment", comment := none }, db)
          else
            let newComment : Comment :=
              { _id := newId, postId := postId, userId := user.id.toObjectId,
                parentId := (match parent with
                  | .valid id => some id
                  | _ => none),
                content := jsTrim s, likes := [], likesCount := 0, createdAt := now }
            ({ status := 201, text := "Comment added successfully",
               comment := some newComment }, db ++ [newComment])

/-! ## Backend: projection fields, routes and the counter hooks -/

/-- The operand `m` of `m || ...` for a message: kept when it is a non-empty string. -/
def truthyMessage (m : Option String) : Option String :=
  m.filter (fun text => text != "")

/-- The field `commentObj.likesCount` of the projection (line 120):
`comment.likes?.length || 0`. -/
def projectedLikesCount (comment : Comment) : Nat :=
  if comment.likes.length = 0 then 0 else comment.likes.length

/-- The populated `commentObj.userId`: the fields of the user document that the projection
reads, `none` for a field that is absent. -/
structure PopulatedUser where
  _id : ObjectId
  name : Option String
  username : Option String
  avatar : Option String
  deriving DecidableEq, Repr

/-- The object `authorInfo` attached as `author` (lines 123-128). -/
structure AuthorInfo where
  _id : ObjectId
  name : String
  username : String
  avatar : String
  deriving DecidableEq, Repr

/-- The expression `a || b || literal` on texts. -/
def firstNonEmpty (a b : Option String) (literal : String) : String :=
  match truthyMessage a with
  | some text => text
  | none =>
    match truthyMessage b with
    | some text => text
    | none => literal

/-- The computation of `authorInfo` (lines 123-128). -/
def authorInfo (user : PopulatedUser) : AuthorInfo :=
  { _id := user._id,
    name := firstNonEmpty user.name user.username "Unknown Author",
    username := firstNonEmpty user.username user.name "unknown",
    avatar := firstNonEmpty user.avatar none "default-avatar.png" }

/-- The routes of `commentRoutes.js`. -/
inductive CommentRoute where
  | getCommentsByPost
  | addComment
  | deleteComment
  | likeComment
  | unlikeComment
  deriving DecidableEq, Repr

/-- The name of the path parameter in the pattern of a route (lines 6-14): `/:id` for the
listing, `/:commentId` and `/:commentId/like` for deleting, liking and unliking. -/
def CommentRoute.paramName : CommentRoute → Option String
  | .getCommentsByPost => some "id"
  | .addComment => none
  | .deleteComment => some "commentId"
  | .likeComment => some "commentId"
  | .unlikeComment => some "commentId"

/-- The object `req.params` of a request matched by a route, for the path segment that holds a
syntactically valid id. -/
def reqParams (route : CommentRoute) (segment : ObjectId) : List (String × ObjectId) :=
  match route.paramName with
  | some name => [(name, segment)]
  | none => []

/-- The handler `likeComment` behind its route: it reads `req.params.id` (line 180). -/
def routedLikeComment (db : List Comment) (segment : ObjectId) (user : ReqUser) (now : Int) :
    Response × List Comment :=
  likeComment db ((reqParams CommentRoute.likeComment segment).lookup "id") user now

/-- The handler `unlikeComment` behind its route: it reads `req.params.id` (line 228). -/
def routedUnlikeComment (db : List Comment) (segment : ObjectId) (user : ReqUser) :
    Response × List Comment :=
  unlikeComment db ((reqParams CommentRoute.unlikeComment segment).lookup "id") user

/-- The handler `deleteComment` behind its route: it reads `req.params.id` (line 276). -/
def routedDeleteComment (db : List Comment) (segment : ObjectId) (user : ReqUser) :
    Response × List Comment :=
  deleteComment db ((reqParams CommentRoute.deleteComment segment).lookup "id") user

/-- The update `Blog.findByIdAndUpdate(postId, { $inc: { commentsCount: delta } })`. -/
def incCommentsCount (blogs : List BlogDoc) (postId : ObjectId) (delta : Int) : List BlogDoc :=
  blogs.map (fun blog =>
    if blog._id == postId then { blog with commentsCount := blog.commentsCount + delta }
    else blog)

/-- The hook `commentSchema.post('save')` (models/Comment.js, lines 55-65): it runs after
every `save()` of a comment document. -/
def postSaveHook (blogs : List BlogDoc) (doc : Comment) : List BlogDoc :=
  incCommentsCount blogs doc.postId 1

/-- The hook `commentSchema.post('remove')` (lines 68-78): it runs after `remove()` of a
comment document. -/
def postRemoveHook (blogs : List BlogDoc) (doc : Comment) : List BlogDoc :=
  incCommentsCount blogs doc.postId (-1)

/-- The handler `addComment` with the hooks: `newComment.save()` runs the post-save hook. -/
def addCommentHooked (blogs : List BlogDoc) (db : List Comment) (postId : Option ObjectId)
    (content : ContentValue) (parentId : ParentValue) (user : ReqUser) (newId : ObjectId)
    (now : Int) : Response × List BlogDoc × List Comment :=
  let result := addComment blogs db postId content parentId user newId now
  match result.1.comment with
  | some saved => (result.1, postSaveHook blogs saved, result.2)
  | none => (result.1, blogs, result.2)

/-- The handler `likeComment` with the hooks: `comment.save()` (line 206) runs the post-save
hook. -/
def likeCommentHooked (blogs : List BlogDoc) (db : List Comment) (paramsId : Option ObjectId)
    (user : ReqUser) (now : Int) : Response × List BlogDoc × List Comment :=
  let result := likeComment db paramsId user now
  match result.1.comment with
  | some saved => (result.1, postSaveHook blogs saved, result.2)
  | none => (result.1, blogs, result.2)

/-- The handler `unlikeComment` with the hooks: `comment.save()` (line 254) runs the post-save
hook. -/
def unlikeCommentHooked (blogs : List BlogDoc) (db : List Comment)
    (paramsId : Option ObjectId) (user : ReqUser) : Response × List BlogDoc × List Comment :=
  let result := unlikeComment db paramsId user
  match result.1.comment with
  | some saved => (result.1, postSaveHook blogs saved, result.2)
  | none => (result.1, blogs, result.2)

/-- The handler `deleteComment` with the hooks: it calls `comment.deleteOne()` (line 296),
for which no hook is registered; the post-remove hook belongs to `remove()` and does not
run. -/
def deleteCommentHooked (blogs : List BlogDoc) (db : List Comment)
    (paramsId : Option ObjectId) (user : ReqUser) : Response × List BlogDoc × List Comment :=
  let result := deleteComment db paramsId user
  (result.1, blogs, result.2)

/-- The number of stored comments of a post. -/
def commentsOfPost (db : List Comment) (postId : ObjectId) : Nat :=
  (db.filter (fun comment => comment.postId == postId)).length

/-! ## Frontend: `renderComments` of `CommentSection.js` -/

/-- A comment record held by the Redux store. Ids are strings in the source: `none` stands for
a missing or empty (falsy) value and `some i` for a non-empty string. `createdAt` is the valid
date its string parses to, in milliseconds. -/
structure StoreComment where
  _id : Option Nat
  parentId : Option Nat
  content : String
  createdAt : Int
  likesCount : Nat
  isLiked : Bool
  isLocal : Bool
  deriving DecidableEq, Repr

/-- A rendered `<div className="comment">`: the record it shows and the nested comments
section. The empty list stands for `null`: the source never renders an empty section
(line 174). -/
inductive CommentView where
  | mk (comment : StoreComment) (children : List CommentView)
  deriving Repr

/-- The record shown by a rendered comment. -/
def CommentView.comment : CommentView → StoreComment
  | .mk c _ => c

/-- The nested section of a rendered comment. -/
def CommentView.children : CommentView → List CommentView
  | .mk _ vs => vs

mutual
/-- The records shown by a rendered comment and everything nested in it, in document order. -/
def CommentView.flatten : CommentView → List StoreComment
  | .mk c vs => c :: flattenViews vs
/-- The records shown by a rendered section, nested comments included. -/
def flattenViews : List CommentView → List StoreComment
  | [] => []
  | v :: vs => v.flatten ++ flattenViews vs
end

/-- The sort of lines 177-181 (and of the selector, lines 26-28): `Array.prototype.sort` is
stable, and the comparator `dateB - dateA` puts `a` first exactly when it is not older. -/
def sortNewestFirst (l : List StoreComment) : List StoreComment :=
  l.insertionSort (fun a b => b.createdAt ≤ a.createdAt)

/-- The lookup `commentsById.get(id)` (lines 162 and 187): the `Map` is filled in list order,
so a later record replaces an earlier one with the same `_id`. -/
def commentsByIdGet (commentsArr : List StoreComment) (id : Option Nat) : Option StoreComment :=
  commentsArr.reverse.find? (fun comment => comment._id == id)

/-- The comments kept by the filter of lines 165-172: a truthy `_id`, and a `parentId` that
equals the requested one after both are normalised (falsy to `null`). -/
def filteredComments (commentsArr : List StoreComment) (parentId : Option Nat) :
    List StoreComment :=
  commentsArr.filter (fun comment => comment._id.isSome && (comment.parentId == parentId))

/-- The list `sortedComments` of lines 177-181. -/
def sortedComments (commentsArr : List StoreComment) (parentId : Option Nat) :
    List StoreComment :=
  sortNewestFirst (filteredComments commentsArr parentId)

/-- The body of `renderComments` by the number of levels still allowed,
`maxDepth + 1 - depth`: none is left exactly when `depth > maxDepth` (line 159). The argument
is an array of records, so the guard of line 158 does not apply; a sorted comment whose
lookup fails renders nothing (line 189). -/
def renderLevels (commentsArr : List StoreComment) : Nat → Option Nat → List CommentView
  | 0, _ => []
  | levels + 1, parentId =>
    (sortedComments commentsArr parentId).filterMap (fun comment =>
      (commentsByIdGet commentsArr comment._id).map (fun currentComment =>
        CommentView.mk currentComment (renderLevels commentsArr levels currentComment._id)))

/-- The function `renderComments(commentsArr, parentId, depth, maxDepth)` (lines 157-262). -/
def renderComments (commentsArr : List StoreComment) (parentId : Option Nat)
    (depth maxDepth : Nat) : List CommentView :=
  renderLevels commentsArr (maxDepth + 1 - depth) parentId

/-- The call `renderComments(comments)` of line 312, with the default arguments
`parentId = null`, `depth = 0`, `maxDepth = 10`. -/
def renderCommentList (commentsArr : List StoreComment) : List CommentView :=
  renderComments commentsArr none 0 10

/-- A reply chain of store records hanging from `parentId`. -/
def IsThreadFrom : Option Nat → List StoreComment → Prop
  | _, [] => True
  | parentId, c :: rest => c._id.isSome ∧ c.parentId = parentId ∧ IsThreadFrom c._id rest

/-- The rendering in which each comment holds exactly the next one. -/
def viewPath : List StoreComment → List CommentView
  | [] => []
  | c :: rest => [CommentView.mk c (viewPath rest)]

/-! ## Frontend: the comment slice (`commentSlice.js`) -/

/-- A value found under `commentsByBlog[blogId]` or in `userComments`: `undefined`, an array
(whose items are records or `undefined`, written `none`), or any other truthy value, such as
a response body. -/
inductive Slot where
  | undefined
  | array (items : List (Option StoreComment))
  | object
  deriving DecidableEq, Repr

/-- The state of the slice (lines 4-12). The keys of `commentsByBlog` are blog ids, `none`
standing for the key `undefined`. -/
structure CommentsState where
  commentsByBlog : Option Nat → Slot
  userComments : Slot
  status : String
  error : Option String
  lastFetchTime : Option Int
  processedComments : Nat
  totalComments : Nat

/-- The value `initialState`. -/
def initialState : CommentsState :=
  { commentsByBlog := fun _ => Slot.undefined, userComments := Slot.array [], status := "idle",
    error := none, lastFetchTime := none, processedComments := 0, totalComments := 0 }

/-- The actions the slice can receive: the three lifecycle actions of each thunk, with the
fields of `action.payload`, `action.error` and `action.meta.arg` that the reducers read, and
the two plain reducers. `comment` is `action.payload.comment`, `none` when the payload has no
such field. -/
inductive CommentAction where
  | fetchCommentsPending
  | fetchCommentsFulfilled (blogId : Option Nat) (comments : Slot) (now : Int)
  | fetchCommentsRejected (payloadMessage errorMessage : Option String)
  | fetchUserCommentsPending
  | fetchUserCommentsFulfilled (payload : Slot)
  | fetchUserCommentsRejected (payloadMessage errorMessage : Option String)
  | addCommentPending
  | addCommentFulfilled (blogId : Option Nat) (comment : Option StoreComment)
  | addCommentRejected (payloadMessage errorMessage : Option String)
  | updateCommentPending
  | updateCommentFulfilled (comment : Option StoreComment) (updatedAt : Int)
  | updateCommentRejected (payloadMessage errorMessage : Option String)
  | deleteCommentPending
  | deleteCommentFulfilled (blogId commentId : Option Nat)
  | deleteCommentRejected (payloadMessage errorMessage : Option String)
  | likeCommentPending
  | likeCommentFulfilled (blogId commentId : Option Nat) (comment : Option StoreComment)
  | likeCommentRejected (payloadMessage errorMessage : Option String)
  | unlikeCommentPending
  | unlikeCommentFulfilled (blogId commentId : Option Nat) (comment : Option StoreComment)
  | unlikeCommentRejected (payloadMessage : Option String)
  | clearCommentError
  | resetCommentState

/-- The expression `action.payload?.message || action.error?.message || fallback`. -/
def rejectionMessage (payloadMessage errorMessage : Option String) (fallback : String) :
    String :=
  ((truthyMessage payloadMessage).orElse (fun _ => truthyMessage errorMessage)).getD fallback

/-- The expression `value || []`. -/
def orEmptyArray (value : Slot) : Slot :=
  match value with
  | .undefined => Slot.array []
  | other => other

/-- The call `list.filter(comment => comment._id !== commentId)`: it throws (`none`) when
`list` is not an array and when an item is `undefined`. -/
def filterOutId (list : Slot) (commentId : Option Nat) : Option Slot :=
  match list with
  | .array items =>
    (collect items).map (fun records =>
      Slot.array ((records.filter (fun comment => comment._id != commentId)).map some))
  | _ => none

/-- The call `list.map(comment => comment._id === commentId ? replacement : comment)`: it
throws (`none`) when `list` is not an array and when an item is `undefined`. -/
def replaceById (list : Slot) (commentId : Option Nat) (replacement : Option StoreComment) :
    Option Slot :=
  match list with
  | .array items =>
    (collect items).map (fun records =>
      Slot.array (records.map (fun comment =>
        if comment._id == commentId then replacement else some comment)))
  | _ => none

/-- The reducer of the slice (lines 148-275): `none` when the case reducer throws. An action
without a case, such as the lifecycle actions of `updateComment`, leaves the state as it is. -/
def commentReducer (state : CommentsState) : CommentAction → Option CommentsState
  | .fetchCommentsPending => some { state with status := "loading", error := none }
  | .fetchCommentsFulfilled blogId comments now =>
    some { state with
      status := "succeeded",
      commentsByBlog := Function.update state.commentsByBlog blogId comments,
      lastFetchTime := some now }
  | .fetchCommentsRejected payloadMessage errorMessage =>
    some { state with
      status := "failed",
      error := some (rejectionMessage payloadMessage errorMessage "Failed to fetch comments") }
  | .fetchUserCommentsPending => some { state with status := "loading", error := none }
  | .fetchUserCommentsFulfilled payload =>
    some { state with status := "succeeded", userComments := payload }
  | .fetchUserCommentsRejected payloadMessage errorMessage =>
    some { state with
      status := "failed",
      error := some
        (rejectionMessage payloadMessage errorMessage "Failed to fetch user comments") }
  | .addCommentPending => some { state with status := "loading", error := none }
  | .addCommentFulfilled blogId newComment =>
    let previous : List (Option StoreComment) :=
      match state.commentsByBlog blogId with
      | .array items => items
      | _ => []
    some { state with
      status := "succeeded",
      commentsByBlog :=
        Function.update state.commentsByBlog blogId (Slot.array (previous ++ [newComment])),
      processedComments := state.processedComments + 1,
      totalComments := state.totalComments + 1 }
  | .addCommentRejected payloadMessage errorMessage =>
    some { state with
      status := "failed",
      error := some (rejectionMessage payloadMessage errorMessage "Failed to add comment") }
  | .deleteCommentPending => some { state with status := "loading", error := none }
  | .deleteCommentFulfilled blogId commentId =>
    (filterOutId (orEmptyArray (state.commentsByBlog blogId)) commentId).bind
      (fun blogComments =>
        (filterOutId state.userComments commentId).map (fun userComments =>
          { state with
            status := "succeeded",
            commentsByBlog := Function.update state.commentsByBlog blogId blogComments,
            userComments := userComments }))
  | .deleteCommentRejected payloadMessage errorMessage =>
    some { state with
      status := "failed",
      error := some (rejectionMessage payloadMessage errorMessage "Failed to delete comment") }
  | .likeCommentPending => some { state with status := "loading", error := none }
  | .likeCommentFulfilled blogId commentId comment =>
    (replaceById (orEmptyArray (state.commentsByBlog blogId)) commentId comment).bind
      (fun blogComments =>
        (replaceById state.userComments commentId comment).map (fun userComments =>
          { state with
            status := "succeeded",
            commentsByBlog := Function.update state.commentsByBlog blogId blogComments,
            userComments := userComments }))
  | .likeCommentRejected payloadMessage errorMessage =>
    some { state with
      status := "failed",
      error := some (rejectionMessage payloadMessage errorMessage "Failed to like comment") }
  | .unlikeCommentPending => some { state with status := "loading", error := none }
  | .unlikeCommentFulfilled blogId commentId comment =>
    (replaceById (orEmptyArray (state.commentsByBlog blogId)) commentId comment).bind
      (fun blogComments =>
        (replaceById state.userComments commentId comment).map (fun userComments =>
          { state with
            status := "succeeded",
            commentsByBlog := Function.update state.commentsByBlog blogId blogComments,
            userComments := userComments }))
  | .unlikeCommentRejected payloadMessage =>
    some { state with
      status := "failed",
      error := some (rejectionMessage payloadMessage none "Failed to unlike comment") }
  | .updateCommentPending => some state
  | .updateCommentFulfilled _ _ => some state
  | .updateCommentRejected _ _ => some state
  | .clearCommentError => some { state with error := none }
  | .resetCommentState => some initialState

/-- The `likeComment.fulfilled` action as the thunk produces it (lines 124-134): its payload
`{ blogId, commentId, likesCount, isLiked }` has no field `comment`. -/
def likeCommentCompleted (blogId commentId : Option Nat) : CommentAction :=
  CommentAction.likeCommentFulfilled blogId commentId none

/-- The `unlikeComment.fulfilled` action as the thunk produces it (lines 136-146). -/
def unlikeCommentCompleted (blogId commentId : Option Nat) : CommentAction :=
  CommentAction.unlikeCommentFulfilled blogId commentId none

/-- Two actions applied one after the other. -/
def applyTwo (state : CommentsState) (first second : CommentAction) : Option CommentsState :=
  (commentReducer state first).bind (fun next => commentReducer next second)

/-! ## Frontend: selector, fetching, routes and the blog slice -/

/-- The call `[...commentData].sort(compare)` on a list that may hold `undefined`:
`Array.prototype.sort` sorts the defined items with the comparator and puts the `undefined`
ones after them. -/
def sortItemsNewestFirst (items : List (Option StoreComment)) : List (Option StoreComment) :=
  (sortNewestFirst (items.filterMap id)).map some ++ items.filter (fun item => item.isNone)

/-- The selector `selectCommentsByBlogId` (commentSelectors.js, lines 12-30). `comments` is
`state?.comments`, `none` when the root state has no such slice (line 5 then supplies an empty
`commentsByBlog`); `blogId` is `none` when falsy. The result is paired with the slice after
the call: the sort runs on the copy `[...commentData]`, so the slice is the one received. -/
def selectCommentsByBlogId (comments : Option CommentsState) (blogId : Option Nat) :
    List (Option StoreComment) × Option CommentsState :=
  match blogId with
  | none => ([], comments)
  | some id =>
    let commentData : Slot :=
      match comments with
      | some slice => slice.commentsByBlog (some id)
      | none => Slot.undefined
    match commentData with
    | .array items => (sortItemsNewestFirst items, comments)
    | _ => ([], comments)

/-- The body that `getCommentsByPost` sends (commentController.js, lines 151-160):
`{ data: { blogId, comments, total, ... } }`. -/
structure CommentsBody where
  blogId : Nat
  comments : List StoreComment
  total : Nat
  deriving DecidableEq, Repr

/-- The `fetchComments.fulfilled` action as the thunk produces it (commentSlice.js,
lines 14-27): the payload is `{ blogId, comments: response.data }`, where `response.data` is
the whole body, an object and not an array. -/
def fetchCommentsCompleted (blogId : Option Nat) (_body : CommentsBody) (now : Int) :
    CommentAction :=
  CommentAction.fetchCommentsFulfilled blogId Slot.object now

/-- The part of the auth state that `PrivateRoute` reads; `role` is `user?.role`. -/
structure AuthState where
  isAuthenticated : Bool
  loading : Bool
  token : Option String
  role : Option String
  deriving DecidableEq, Repr

/-- The prop `requiredRole`: absent, one role, or an array of roles. -/
inductive RequiredRole where
  | absent
  | one (role : String)
  | many (roles : List String)
  deriving DecidableEq, Repr

/-- What `PrivateRoute` returns: the loading spinner, a `Navigate` to a path, or its
children. -/
inductive RouteOutcome where
  | spinner
  | navigate (path : String)
  | children
  deriving DecidableEq, Repr

/-- The component `PrivateRoute` (PrivateRoute.js, lines 15-66). -/
def PrivateRoute (auth : AuthState) (requiredRole : RequiredRole)
    (redirectTo : Option String) : RouteOutcome :=
  if auth.loading then RouteOutcome.spinner
  else if (truthyMessage auth.token).isNone || !auth.isAuthenticated then
    RouteOutcome.navigate "/login"
  else
    let requiredRoles : Option (List String) :=
      match requiredRole with
      | .absent => none
      | .one role => if role = "" then none else some [role]
      | .many roles => some roles
    match requiredRoles with
    | none => RouteOutcome.children
    | some roles =>
      let hasRequiredRole :=
        match truthyMessage auth.role with
        | some role => roles.contains role
        | none => false
      if hasRequiredRole then RouteOutcome.children
      else
        match truthyMessage redirectTo with
        | some path => RouteOutcome.navigate path
        | none =>
          RouteOutcome.navigate (if requiredRole = RequiredRole.one "admin" then "/admin" else "/")

/-- The ref `prevBlogId` of `CommentSection` (line 32). -/
structure FetchEffectState where
  prevBlogId : Option Nat
  deriving DecidableEq, Repr

/-- Mounting `CommentSection`: `useRef(blogId)` initialises the ref with the first `blogId`. -/
def mountCommentSection (blogId : Option Nat) : FetchEffectState :=
  { prevBlogId := blogId }

/-- One run of the fetch effect (CommentSection.js, lines 35-66) for the current `blogId`
(`none` when falsy): the ref afterwards, and the argument of the `fetchComments` it
dispatches, if any. -/
def fetchEffect (ref : FetchEffectState) (blogId : Option Nat) :
    FetchEffectState × Option Nat :=
  match blogId with
  | none => (ref, none)
  | some currentBlogId =>
    if blogId != ref.prevBlogId then ({ prevBlogId := blogId }, some currentBlogId)
    else (ref, none)

/-- A blog record of the blog slice. -/
structure BlogRecord where
  _id : Option Nat
  title : String
  deriving DecidableEq, Repr

/-- The part of the blog slice that `deleteBlog.fulfilled` reads and writes. -/
structure BlogsState where
  blogs : List BlogRecord
  currentBlog : Option BlogRecord
  loading : Bool
  status : String
  deriving DecidableEq, Repr

/-- The argument a `deleteBlog` thunk was invoked with (`action.meta.arg`): the id string, as
in `dispatch(deleteBlog(id))` (BlogDetail.js, line 209), or an object with a field
`blogId`. -/
inductive DeleteBlogArg where
  | id (blogId : Nat)
  | object (blogId : Option Nat)
  deriving DecidableEq, Repr

/-- The destructuring `const { blogId } = action.meta.arg` (blogSlice.js, line 401): a string
has no property `blogId`. -/
def DeleteBlogArg.blogId : DeleteBlogArg → Option Nat
  | .id _ => none
  | .object blogId => blogId

/-- The case reducer `deleteBlog.fulfilled` (blogSlice.js, lines 398-406). -/
def deleteBlogFulfilled (state : BlogsState) (arg : DeleteBlogArg) : BlogsState :=
  let blogId := arg.blogId
  { state with
    loading := false,
    status := "succeeded",
    blogs := state.blogs.filter (fun blog => blog._id != blogId),
    currentBlog :=
      if (state.currentBlog.bind (fun blog => blog._id)) == blogId then none
      else state.currentBlog }

/-! ## Well-formed lists -/

/-- The relation `ParentEdge comments a b`: a comment of the list has id `b` and names `a` as
its parent. -/
def ParentEdge (comments : List Comment) (a b : ObjectId) : Prop :=
  ∃ c ∈ comments, c._id = b ∧ c.parentId = some a

/-- Acyclic parent references: no id is, transitively, its own ancestor. -/
def Acyclic (comments : List Comment) : Prop :=
  ∀ i, ¬ Relation.TransGen (ParentEdge comments) i i

/-- Every non-null `parentId` is the id of a comment of the list (no dangling parent). -/
def ParentsResolve (comments : List Comment) : Prop :=
  ∀ c ∈ comments, ∀ p, c.parentId = some p → ∃ c' ∈ comments, c'._id = p

/-! ## Example data -/

/-- Example comment with the given id, parent and creation time. -/
def sampleComment (id : ObjectId) (parentId : Option ObjectId) (createdAt : Int) : Comment :=
  { _id := id, postId := 100, userId := 7, parentId := parentId, content := "text",
    likes := [], likesCount := 0, createdAt := createdAt }

/-- A stored list of one post: a thread `4 ← 5`, a two-cycle `1 ↔ 2` and a self-parent `3`. -/
def cyclicComments : List Comment :=
  [sampleComment 1 (some 2) 50, sampleComment 2 (some 1) 40, sampleComment 3 (some 3) 30,
   sampleComment 4 none 20, sampleComment 5 (some 4) 10]

/-- A stored list of one post whose only comment replies to a comment that was deleted. -/
def orphanComments : List Comment := [sampleComment 2 (some 1) 10]

/-- The thread `1 ← 2 ← 3` in which comment 2 was written by user 8, whose document was
deleted afterwards: the stored users are `[7]`. -/
def deletedAuthorThread : List Comment :=
  [sampleComment 1 none 10, { sampleComment 2 (some 1) 20 with userId := 8 },
   sampleComment 3 (some 2) 30]

/-- The thread `1 ← 2 ← 3` of the specification scenario. -/
def threadComments : List Comment :=
  [sampleComment 1 none 10, sampleComment 2 (some 1) 20, sampleComment 3 (some 2) 30]

/-- Example store record with the given id, parent and creation time. -/
def sampleRecord (id : Option Nat) (parentId : Option Nat) (createdAt : Int) : StoreComment :=
  { _id := id, parentId := parentId, content := "text", createdAt := createdAt,
    likesCount := 0, isLiked := false, isLocal := false }

/-- A reply chain of twelve records, ids 1 to 12, each replying to the previous one. -/
def longThread : List StoreComment :=
  (List.range 12).map (fun i =>
    sampleRecord (some (i + 1)) (if i = 0 then none else some i) (100 - (i : Int)))

/-- A store list in which the record with id 1 occurs twice, first fresh then stale. -/
def staleRecords : List StoreComment :=
  [sampleRecord (some 1) none 5, sampleRecord (some 2) none 3, sampleRecord (some 1) none 1]

/-- A store list with two top-level records of equal creation time around a newer one. -/
def tiedRecords : List StoreComment :=
  [sampleRecord (some 1) none 5, sampleRecord (some 3) none 7, sampleRecord (some 2) none 5]

/-- A store list with a top-level record and a reply whose parent (id 1) is not stored. -/
def orphanRecords : List StoreComment :=
  [sampleRecord (some 3) none 20, sampleRecord (some 2) (some 1) 10]

/-- A store list with a top-level record and two records that name each other as parent. -/
def cycleRecords : List StoreComment :=
  [sampleRecord (some 3) none 30, sampleRecord (some 1) (some 2) 20,
   sampleRecord (some 2) (some 1) 10]

/-- The user document of the user with id 7. -/
def sampleUser : User :=
  { _id := 7, name := "Ann", email := "ann@example.org", role := "user", username := "ann" }

/-- A stored comment (id 1, written by user 9) that user 7 has liked once. -/
def likedComment : Comment :=
  { _id := 1, postId := 100, userId := 9, parentId := none, content := "text",
    likes := [{ userId := 7, createdAt := 10 }], likesCount := 1, createdAt := 5 }

/-- The user document of the author (id 9) of `likedComment`. -/
def authorUser : User :=
  { _id := 9, name := "Bob", email := "bob@example.org", role := "user", username := "bob" }

/-- A comment text of 1001 letters. -/
def longText : String := ⟨List.replicate 1001 'a'⟩

/-- Example store record with the given id and text. -/
def textRecord (id : Nat) (content : String) : StoreComment :=
  { _id := some id, parentId := none, content := content, createdAt := 10, likesCount := 0,
    isLiked := false, isLocal := false }

/-- A store list in which the record with id 1 occurs twice, the later copy edited; all
three records are top-level and have the same creation time. -/
def duplicateTied : List StoreComment :=
  [textRecord 1 "first", textRecord 2 "second", textRecord 1 "edited"]

/-- A store whose list for blog 1 holds the given records. -/
def storeWith (records : List StoreComment) : CommentsState :=
  { initialState with
    commentsByBlog := fun blogId =>
      if blogId = some 1 then Slot.array (records.map some) else Slot.undefined }

/-- The user document of an administrator. -/
def adminUser : User :=
  { _id := 3, name := "Root", email := "root@example.org", role := "admin",
    username := "root" }

/-- A populated user without name and username. -/
def namelessUser : PopulatedUser :=
  { _id := 7, name := none, username := none, avatar := none }

/-- An authenticated user with the role `user`. -/
def signedInUser : AuthState :=
  { isAuthenticated := true, loading := false, token := some "token", role := some "user" }

/-- A blog store with two blogs, the first one open. -/
def twoBlogs : BlogsState :=
  { blogs := [{ _id := some 1, title := "first" }, { _id := some 2, title := "second" }],
    currentBlog := some { _id := some 1, title := "first" }, loading := true,
    status := "loading" }

/-! # Theorems -/

/-! ## Lemmas on `collect` -/

theorem collect_eq_some_iff {α : Type} (os : List (Option α)) (r : List α) :
    collect os = some r ↔ os = r.map some := by
  induction os generalizing r with
  | nil => cases r <;> simp [collect]
  | cons o os ih =>
    cases o with
    | none => cases r <;> simp [collect]
    | some a =>
      cases r with
      | nil => simp [collect]
      | cons b r =>
        simp only [collect, Option.map_eq_some', List.map_cons, List.cons.injEq,
          Option.some.injEq]
        constructor
        · rintro ⟨r', hr', e⟩
          obtain ⟨rfl, rfl⟩ := e
          exact ⟨rfl, (ih r').1 hr'⟩
        · rintro ⟨rfl, e⟩
          exact ⟨r, (ih r).2 e, rfl, rfl⟩

theorem map_eq_map_some {α β : Type} {g : α → Option β} {h : α → β} :
    ∀ {l : List α} {r : List β}, l.map g = r.map some →
      (∀ x ∈ l, ∀ y, g x = some y → y = h x) → r = l.map h
  | [], r, e, _ => by cases r <;> simp_all
  | a :: l, [], e, _ => by simp at e
  | a :: l, b :: r, e, hh => by
    simp only [List.map_cons, List.cons.injEq] at e
    have hb : b = h a := hh a (List.mem_cons_self a l) b e.1
    have hr : r = l.map h :=
      map_eq_map_some e.2 (fun x hx y hy => hh x (List.mem_cons_of_mem a hx) y hy)
    simp [hb, hr]

theorem collect_map_some {α β : Type} (l : List α) (g : α → Option β) (h : α → β)
    (hg : ∀ x ∈ l, g x = some (h x)) : collect (l.map g) = some (l.map h) := by
  rw [collect_eq_some_iff, List.map_map]
  exact List.map_congr_left (fun x hx => by simp [hg x hx])

/-! ## The recursion without the error path against its total companion -/

theorem processPopulated_eq_forest (comments : List Comment) :
    ∀ (fuel : Nat) (parentId : Option ObjectId) (r : List CommentNode),
      processPopulated comments fuel parentId = some r → r = forest comments fuel parentId
  | 0, _, _, h => by simp [processPopulated] at h
  | fuel + 1, parentId, r, h => by
    rw [processPopulated, collect_eq_some_iff] at h
    rw [forest]
    refine map_eq_map_some h (fun c _ y hy => ?_)
    simp only [Option.map_eq_some'] at hy
    obtain ⟨rs, hrs, rfl⟩ := hy
    rw [processPopulated_eq_forest comments fuel _ rs hrs]

theorem processPopulated_succ (comments : List Comment) :
    ∀ (fuel : Nat) (parentId : Option ObjectId) (r : List CommentNode),
      processPopulated comments fuel parentId = some r →
      processPopulated comments (fuel + 1) parentId = some r
  | 0, _, _, h => by simp [processPopulated] at h
  | fuel + 1, parentId, r, h => by
    have hr := processPopulated_eq_forest comments _ _ _ h
    rw [processPopulated, collect_eq_some_iff] at h
    rw [processPopulated, hr, forest]
    refine collect_map_some _ _ _ (fun c hc => ?_)
    have hmem : (processPopulated comments fuel (some c._id)).map (CommentNode.mk c) ∈
        r.map some := by
      rw [← h]; exact List.mem_map_of_mem _ hc
    obtain ⟨y, _, hy⟩ := List.mem_map.1 hmem
    obtain ⟨rs, hrs, _⟩ := Option.map_eq_some'.1 hy.symm
    have h1 := processPopulated_succ comments fuel _ rs hrs
    rw [h1, processPopulated_eq_forest comments fuel _ rs hrs]
    rfl

theorem processPopulated_mono (comments : List Comment) (fuel : Nat)
    (parentId : Option ObjectId) (r : List CommentNode)
    (h : processPopulated comments fuel parentId = some r) :
    ∀ k, processPopulated comments (fuel + k) parentId = some r
  | 0 => h
  | k + 1 =>
    processPopulated_succ comments _ _ _ (processPopulated_mono comments fuel parentId r h k)

/-! ## Paths to the root -/

/-- Comments of a list with pairwise-distinct ids are determined by their id. -/
theorem eq_of_id_eq {comments : List Comment} (hids : (comments.map Comment._id).Nodup)
    {a b : Comment} (ha : a ∈ comments) (hb : b ∈ comments) (h : a._id = b._id) : a = b :=
  List.inj_on_of_nodup_map hids ha hb h

theorem Rooted.inv {comments : List Comment} {parentId : Option ObjectId}
    {path : List ObjectId} (h : Rooted comments parentId path) :
    (parentId = none ∧ path = []) ∨
      ∃ c q, c ∈ comments ∧ parentId = some c._id ∧ path = c._id :: q ∧
        Rooted comments c.parentId q := by
  cases h with
  | root => exact Or.inl ⟨rfl, rfl⟩
  | step h hc hp => exact Or.inr ⟨_, _, hc, rfl, rfl, hp ▸ h⟩

theorem Rooted.unique {comments : List Comment} (hids : (comments.map Comment._id).Nodup)
    {parentId : Option ObjectId} {p : List ObjectId} (hp : Rooted comments parentId p) :
    ∀ {q : List ObjectId}, Rooted comments parentId q → p = q := by
  induction hp with
  | root =>
    intro q hq
    rcases hq.inv with ⟨_, rfl⟩ | ⟨c, q', _, h, _⟩
    · rfl
    · cases h
  | @step parentId path c _ hc hpar ih =>
    intro q hq
    rcases hq.inv with ⟨h, _⟩ | ⟨c', q', hc', h, rfl, hq'⟩
    · cases h
    · have hid : c._id = c'._id := Option.some.inj h
      have hcc : c = c' := eq_of_id_eq hids hc hc' hid
      subst hcc
      subst hpar
      rw [ih hq']

theorem Rooted.suffix {comments : List Comment} {parentId : Option ObjectId}
    {path : List ObjectId} (h : Rooted comments parentId path) :
    ∀ (x : ObjectId) (s : List ObjectId), (x :: s) <:+ path →
      Rooted comments (some x) (x :: s) := by
  induction h with
  | root => intro x s hs; simp at hs
  | @step parentId path c hr hc hpar ih =>
    intro x s hs
    rcases List.suffix_cons_iff.1 hs with h | h
    · obtain ⟨rfl, rfl⟩ := List.cons.inj h
      exact Rooted.step hr hc hpar
    · exact ih x s h

theorem Rooted.nodup {comments : List Comment} (hids : (comments.map Comment._id).Nodup)
    {parentId : Option ObjectId} {path : List ObjectId} (h : Rooted comments parentId path) :
    path.Nodup := by
  induction h with
  | root => exact List.nodup_nil
  | @step parentId path c hr hc hpar ih =>
    refine List.nodup_cons.2 ⟨fun hmem => ?_, ih⟩
    obtain ⟨s, t, rfl⟩ := List.append_of_mem hmem
    have h1 : Rooted comments (some c._id) (c._id :: t) :=
      hr.suffix c._id t (List.suffix_append s _)
    have h2 := h1.unique hids (Rooted.step hr hc hpar)
    have h3 := congrArg List.length h2
    simp at h3
    omega

theorem Rooted.subset {comments : List Comment} {parentId : Option ObjectId}
    {path : List ObjectId} (h : Rooted comments parentId path) :
    ∀ x ∈ path, x ∈ comments.map Comment._id := by
  induction h with
  | root => intro x hx; simp at hx
  | @step parentId path c hr hc hpar ih =>
    intro x hx
    rcases List.mem_cons.1 hx with rfl | hx
    · exact List.mem_map_of_mem _ hc
    · exact ih x hx

theorem Rooted.length_le {comments : List Comment} (hids : (comments.map Comment._id).Nodup)
    {parentId : Option ObjectId} {path : List ObjectId} (h : Rooted comments parentId path) :
    path.length ≤ comments.length := by
  have := ((h.nodup hids).subperm h.subset).length_le
  simpa using this

/-- A call whose argument lies `path.length` levels below the root returns as soon as the
remaining call depth covers the comments not yet on the path. -/
theorem processPopulated_of_rooted (comments : List Comment)
    (hids : (comments.map Comment._id).Nodup) :
    ∀ (fuel : Nat) (parentId : Option ObjectId) (path : List ObjectId),
      Rooted comments parentId path → comments.length < fuel + path.length →
      processPopulated comments fuel parentId = some (forest comments fuel parentId)
  | 0, _, _, hr, hlt => by
    have := hr.length_le hids
    omega
  | fuel + 1, parentId, path, hr, hlt => by
    rw [processPopulated, forest]
    refine collect_map_some _ _ _ (fun c hc => ?_)
    have hc' := List.mem_filter.1 hc
    have hpar : c.parentId = parentId := by simpa using hc'.2
    have hstep : Rooted comments (some c._id) (c._id :: path) := Rooted.step hr hc'.1 hpar
    rw [processPopulated_of_rooted comments hids fuel (some c._id) (c._id :: path) hstep
      (by simp only [List.length_cons]; omega)]
    rfl

theorem forest_succ_of_rooted (comments : List Comment)
    (hids : (comments.map Comment._id).Nodup) (fuel : Nat) (parentId : Option ObjectId)
    (path : List ObjectId) (hr : Rooted comments parentId path)
    (hlt : comments.length < fuel + path.length) :
    forest comments (fuel + 1) parentId = forest comments fuel parentId := by
  have h1 := processPopulated_of_rooted comments hids fuel parentId path hr hlt
  have h2 := processPopulated_succ comments fuel parentId _ h1
  exact (processPopulated_eq_forest comments _ _ _ h2).symm

/-! ## `processComments` with the error path -/

theorem collectCalls_map_returned {α : Type} :
    ∀ os : List (Option α),
      collectCalls (os.map (Option.map Completion.returned)) =
        (collect os).map Completion.returned
  | [] => rfl
  | none :: _ => rfl
  | some a :: rest => by
    rw [List.map_cons, Option.map_some', collectCalls, collectCalls_map_returned rest, collect]
    cases collect rest <;> rfl

theorem collectCalls_eq_returned_iff {α : Type} :
    ∀ (os : List (Option (Completion α))) (r : List α),
      collectCalls os = some (Completion.returned r) ↔
        os = r.map (fun a => some (Completion.returned a))
  | [], r => by cases r <;> simp [collectCalls]
  | none :: rest, r => by cases r <;> simp [collectCalls]
  | some (.threw e) :: rest, r => by cases r <;> simp [collectCalls]
  | some (.returned a) :: rest, r => by
    rw [collectCalls]
    rcases h : collectCalls rest with _ | (v | e)
    · have h1 : ∀ r' : List α, rest ≠ r'.map (fun a => some (Completion.returned a)) := by
        intro r' e
        rw [(collectCalls_eq_returned_iff rest r').2 e] at h
        cases h
      cases r with
      | nil => simp
      | cons b r' => simpa using fun _ => h1 r'
    · have h1 := (collectCalls_eq_returned_iff rest v).1 h
      cases r with
      | nil => simp [Completion.map]
      | cons b r' =>
        simp only [Option.map_some', Completion.map, Option.some.injEq,
          Completion.returned.injEq, List.cons.injEq, List.map_cons]
        constructor
        · rintro ⟨rfl, rfl⟩
          exact ⟨rfl, h1⟩
        · rintro ⟨rfl, h2⟩
          refine ⟨rfl, ?_⟩
          have h3 := (collectCalls_eq_returned_iff rest r').2 h2
          rw [h] at h3
          cases h3
          rfl
    · have h1 : ∀ r' : List α, rest ≠ r'.map (fun a => some (Completion.returned a)) := by
        intro r' e'
        rw [(collectCalls_eq_returned_iff rest r').2 e'] at h
        cases h
      cases r with
      | nil => simp [Completion.map]
      | cons b r' => simpa [Completion.map] using fun _ => h1 r'

/-- A `map` whose callbacks all come back comes back itself. -/
theorem collectCalls_isSome {α β : Type} (g : α → Option (Completion β)) :
    ∀ l : List α, (∀ x ∈ l, ∃ o, g x = some o) → ∃ o, collectCalls (l.map g) = some o
  | [], _ => ⟨_, rfl⟩
  | a :: l, h => by
    obtain ⟨o, ho⟩ := h a (List.mem_cons_self a l)
    obtain ⟨o', ho'⟩ := collectCalls_isSome g l (fun x hx => h x (List.mem_cons_of_mem a hx))
    rw [List.map_cons, ho]
    cases o with
    | threw e => exact ⟨_, rfl⟩
    | returned v =>
      rw [collectCalls, ho']
      exact ⟨_, rfl⟩

/-- The outcome of a `map` is kept when every callback that came back is replaced by one with
the same outcome. -/
theorem collectCalls_congr {α β : Type} (g g' : α → Option (Completion β)) :
    ∀ l : List α, (∀ x ∈ l, ∀ o, g x = some o → g' x = some o) →
      ∀ o, collectCalls (l.map g) = some o → collectCalls (l.map g') = some o
  | [], _, o, h => h
  | a :: l, hg, o, h => by
    rw [List.map_cons] at h ⊢
    rcases ha : g a with _ | (v | e)
    · rw [ha, collectCalls] at h
      cases h
    · rw [ha, collectCalls] at h
      rw [hg a (List.mem_cons_self a l) _ ha, collectCalls]
      rcases hr : collectCalls (l.map g) with _ | o'
      · rw [hr] at h
        cases h
      · rw [hr] at h
        rw [collectCalls_congr g g' l (fun x hx => hg x (List.mem_cons_of_mem a hx)) o' hr]
        exact h
    · rw [ha, collectCalls] at h
      rw [hg a (List.mem_cons_self a l) _ ha, collectCalls]
      exact h

/-- When every author is stored, `processComments` returns what the recursion without the
error path gives. -/
theorem processComments_of_populated (users : List ObjectId) (comments : List Comment)
    (hauth : ∀ c ∈ comments, c.userId ∈ users) :
    ∀ (fuel : Nat) (parentId : Option ObjectId),
      processComments users comments fuel parentId =
        (processPopulated comments fuel parentId).map Completion.returned
  | 0, _ => rfl
  | fuel + 1, parentId => by
    rw [processComments, processPopulated, ← collectCalls_map_returned, List.map_map]
    congr 1
    refine List.map_congr_left (fun c hc => ?_)
    have hu : users.contains c.userId = true := by
      simpa using hauth c (List.mem_filter.1 hc).1
    simp only [hu, if_true, Function.comp, processComments_of_populated users comments hauth fuel]
    cases processPopulated comments fuel (some c._id) <;> rfl

/-- A call that came back comes back, with the same outcome, on a larger call-depth budget. -/
theorem processComments_succ (users : List ObjectId) (comments : List Comment) :
    ∀ (fuel : Nat) (parentId : Option ObjectId) (o : Completion (List CommentNode)),
      processComments users comments fuel parentId = some o →
      processComments users comments (fuel + 1) parentId = some o
  | 0, _, _, h => by simp [processComments] at h
  | fuel + 1, parentId, o, h => by
    rw [processComments] at h ⊢
    refine collectCalls_congr _ _ _ (fun c _ o' ho' => ?_) o h
    by_cases hu : users.contains c.userId = true
    · simp only [hu, if_true] at ho' ⊢
      obtain ⟨r, hr, rfl⟩ := Option.map_eq_some'.1 ho'
      rw [processComments_succ users comments fuel _ r hr]
      rfl
    · simp only [hu] at ho' ⊢
      exact ho'

theorem processComments_mono (users : List ObjectId) (comments : List Comment) (fuel : Nat)
    (parentId : Option ObjectId) (o : Completion (List CommentNode))
    (h : processComments users comments fuel parentId = some o) :
    ∀ k, processComments users comments (fuel + k) parentId = some o
  | 0 => h
  | k + 1 =>
    processComments_succ users comments _ _ _
      (processComments_mono users comments fuel parentId o h k)

/-- Whatever the stored users, `processComments` comes back (with a value or an error) on
every call-depth budget on which the recursion without the error path does. -/
theorem processComments_isSome (users : List ObjectId) (comments : List Comment) :
    ∀ (fuel : Nat) (parentId : Option ObjectId) (r : List CommentNode),
      processPopulated comments fuel parentId = some r →
      ∃ o, processComments users comments fuel parentId = some o
  | 0, _, _, h => by simp [processPopulated] at h
  | fuel + 1, parentId, r, h => by
    rw [processPopulated, collect_eq_some_iff] at h
    rw [processComments]
    refine collectCalls_isSome _ _ (fun c hc => ?_)
    by_cases hu : users.contains c.userId = true
    · have hmem : (processPopulated comments fuel (some c._id)).map (CommentNode.mk c) ∈
          r.map some := by
        rw [← h]; exact List.mem_map_of_mem _ hc
      obtain ⟨y, _, hy⟩ := List.mem_map.1 hmem
      obtain ⟨rs, hrs, _⟩ := Option.map_eq_some'.1 hy.symm
      obtain ⟨o, ho⟩ := processComments_isSome users comments fuel _ rs hrs
      exact ⟨Completion.map (CommentNode.mk c) o, by rw [if_pos hu, ho]; rfl⟩
    · exact ⟨Completion.threw "TypeError", by rw [if_neg hu]⟩

theorem collectCalls_map_self {α : Type} (k : α → Option (Completion α)) (l : List α)
    (h : ∀ x ∈ l, k x = some (Completion.returned x)) :
    collectCalls (l.map k) = some (Completion.returned l) := by
  rw [collectCalls_eq_returned_iff]
  exact List.map_congr_left h

/-- The `forEach` of lines 146-148 recomputes the replies that the top-level call already
holds: once the top-level call came back, `topLevelComments` has its outcome. -/
theorem topLevelComments_eq (users : List ObjectId) (comments : List Comment) (fuel : Nat)
    (o : Completion (List CommentNode))
    (h : processComments users comments fuel none = some o) :
    topLevelComments users comments fuel = some o := by
  cases o with
  | threw e => simp only [topLevelComments, h]
  | returned tops =>
    simp only [topLevelComments, h]
    cases fuel with
    | zero => simp [processComments] at h
    | succ f =>
      refine collectCalls_map_self _ _ (fun node hnode => ?_)
      rw [processComments, collectCalls_eq_returned_iff] at h
      have hmem : some (Completion.returned node) ∈
          tops.map (fun a => some (Completion.returned a)) := List.mem_map_of_mem _ hnode
      rw [← h] at hmem
      obtain ⟨c, _, hc⟩ := List.mem_map.1 hmem
      by_cases hu : users.contains c.userId = true
      · rw [if_pos hu] at hc
        rcases hr : processComments users comments f (some c._id) with _ | (rs | e)
        · simp [hr] at hc
        · simp only [hr, Option.map_some', Completion.map, Option.some.injEq,
            Completion.returned.injEq] at hc
          subst hc
          simp only [CommentNode.comment,
            processComments_succ users comments f _ _ hr, Option.map_some', Completion.map]
        · simp [hr, Completion.map] at hc
      · rw [if_neg hu] at hc
        cases hc

theorem topLevelComments_eq_forest (users : List ObjectId) (comments : List Comment)
    (hids : (comments.map Comment._id).Nodup) (hauth : ∀ c ∈ comments, c.userId ∈ users)
    (fuel : Nat) (hfuel : comments.length < fuel) :
    processComments users comments fuel none =
        some (Completion.returned (forest comments fuel none)) ∧
      topLevelComments users comments fuel =
        some (Completion.returned (forest comments fuel none)) := by
  have htop : processComments users comments fuel none =
      some (Completion.returned (forest comments fuel none)) := by
    rw [processComments_of_populated users comments hauth,
      processPopulated_of_rooted comments hids fuel none [] Rooted.root (by simpa using hfuel)]
    rfl
  exact ⟨htop, topLevelComments_eq users comments fuel _ htop⟩

/-! ## Nodes of the forest -/

mutual
theorem CommentNode.count_eq_length : ∀ n : CommentNode, n.count = n.flatten.length
  | .mk c rs => by
    simp only [CommentNode.count, CommentNode.flatten, List.length_cons, countNodes_eq_length rs]
    omega
theorem countNodes_eq_length : ∀ ns : List CommentNode, countNodes ns = (flattenNodes ns).length
  | [] => rfl
  | n :: ns => by
    simp only [countNodes, flattenNodes, List.length_append, CommentNode.count_eq_length n,
      countNodes_eq_length ns]
end

theorem flattenNodes_map (l : List Comment) (g : Comment → List CommentNode) :
    flattenNodes (l.map (fun c => CommentNode.mk c (g c))) =
      l.flatMap (fun c => c :: flattenNodes (g c)) := by
  induction l with
  | nil => rfl
  | cons a l ih => simp [flattenNodes, CommentNode.flatten, ih]

theorem flattenNodes_forest_succ (comments : List Comment) (fuel : Nat)
    (parentId : Option ObjectId) :
    flattenNodes (forest comments (fuel + 1) parentId) =
      (comments.filter (fun comment => comment.parentId == parentId)).flatMap
        (fun c => c :: flattenNodes (forest comments fuel (some c._id))) := by
  rw [forest, flattenNodes_map]

theorem mem_flattenNodes_forest_succ (comments : List Comment) (fuel : Nat)
    (parentId : Option ObjectId) (x : Comment) :
    x ∈ flattenNodes (forest comments (fuel + 1) parentId) ↔
      ∃ c ∈ comments, c.parentId = parentId ∧
        (x = c ∨ x ∈ flattenNodes (forest comments fuel (some c._id))) := by
  rw [flattenNodes_forest_succ]
  simp only [List.mem_flatMap, List.mem_filter, beq_iff_eq, List.mem_cons]
  constructor
  · rintro ⟨c, ⟨hc, hp⟩, h⟩
    exact ⟨c, hc, hp, h⟩
  · rintro ⟨c, hc, hp, h⟩
    exact ⟨c, ⟨hc, hp⟩, h⟩

/-- A comment found below `parentId` is a comment of the list, and its path to the root
passes through the path of `parentId`. -/
theorem rooted_of_mem_forest (comments : List Comment) (x : Comment) :
    ∀ (fuel : Nat) (parentId : Option ObjectId) (path : List ObjectId),
      Rooted comments parentId path → x ∈ flattenNodes (forest comments fuel parentId) →
      x ∈ comments ∧ ∃ ext, Rooted comments (some x._id) (x._id :: (ext ++ path))
  | 0, _, _, _, hx => by simp [forest, flattenNodes] at hx
  | fuel + 1, parentId, path, hr, hx => by
    obtain ⟨c, hc, hp, h⟩ := (mem_flattenNodes_forest_succ comments fuel parentId x).1 hx
    have hstep : Rooted comments (some c._id) (c._id :: path) := Rooted.step hr hc hp
    rcases h with rfl | h
    · exact ⟨hc, [], hstep⟩
    · obtain ⟨hxc, ext, hext⟩ :=
        rooted_of_mem_forest comments x fuel (some c._id) (c._id :: path) hstep h
      exact ⟨hxc, ext ++ [c._id], by simpa using hext⟩

theorem rooted_of_mem_piece (comments : List Comment) (x c : Comment) (fuel : Nat)
    (parentId : Option ObjectId) (path : List ObjectId) (hr : Rooted comments parentId path)
    (hc : c ∈ comments) (hp : c.parentId = parentId)
    (hx : x ∈ c :: flattenNodes (forest comments fuel (some c._id))) :
    ∃ e, Rooted comments (some x._id) (e ++ c._id :: path) := by
  have hstep : Rooted comments (some c._id) (c._id :: path) := Rooted.step hr hc hp
  rcases List.mem_cons.1 hx with rfl | h
  · exact ⟨[], hstep⟩
  · obtain ⟨_, ext, hext⟩ :=
      rooted_of_mem_forest comments x fuel (some c._id) (c._id :: path) hstep h
    exact ⟨x._id :: ext, hext⟩

/-- No comment occurs twice in the forest below a rooted `parentId`. -/
theorem nodup_flattenNodes_forest (comments : List Comment)
    (hids : (comments.map Comment._id).Nodup) :
    ∀ (fuel : Nat) (parentId : Option ObjectId) (path : List ObjectId),
      Rooted comments parentId path → (flattenNodes (forest comments fuel parentId)).Nodup
  | 0, _, _, _ => by simp [forest, flattenNodes]
  | fuel + 1, parentId, path, hr => by
    rw [flattenNodes_forest_succ, List.nodup_flatMap]
    have hnd : comments.Nodup := List.Nodup.of_map _ hids
    constructor
    · intro c hc
      have hc' := List.mem_filter.1 hc
      have hp : c.parentId = parentId := by simpa using hc'.2
      have hstep : Rooted comments (some c._id) (c._id :: path) := Rooted.step hr hc'.1 hp
      refine List.nodup_cons.2 ⟨fun hmem => ?_, ?_⟩
      · obtain ⟨_, ext, hext⟩ :=
          rooted_of_mem_forest comments c fuel (some c._id) (c._id :: path) hstep hmem
        have h3 := congrArg List.length (hext.unique hids hstep)
        simp at h3
        omega
      · exact nodup_flattenNodes_forest comments hids fuel (some c._id) (c._id :: path) hstep
    · refine List.Pairwise.imp_of_mem ?_ (hnd.filter _)
      intro a b ha hb hab
      have ha' := List.mem_filter.1 ha
      have hb' := List.mem_filter.1 hb
      have hpa : a.parentId = parentId := by simpa using ha'.2
      have hpb : b.parentId = parentId := by simpa using hb'.2
      rw [Function.onFun, List.disjoint_left]
      intro x hxa hxb
      obtain ⟨e₁, h₁⟩ := rooted_of_mem_piece comments x a fuel parentId path hr ha'.1 hpa hxa
      obtain ⟨e₂, h₂⟩ := rooted_of_mem_piece comments x b fuel parentId path hr hb'.1 hpb hxb
      have heq := h₁.unique hids h₂
      have hlen : e₁.length = e₂.length := by
        have := congrArg List.length heq
        simp at this
        omega
      have hab' := (List.append_inj heq hlen).2
      exact hab (eq_of_id_eq hids ha'.1 hb'.1 (List.cons.inj hab').1)

/-- The replies of a comment of the forest are in the forest one level further down. -/
theorem child_mem_forest (comments : List Comment) (c x : Comment) (hx : x ∈ comments)
    (hp : x.parentId = some c._id) :
    ∀ (fuel : Nat) (parentId : Option ObjectId),
      c ∈ flattenNodes (forest comments fuel parentId) →
      x ∈ flattenNodes (forest comments (fuel + 1) parentId)
  | 0, _, h => by simp [forest, flattenNodes] at h
  | fuel + 1, parentId, h => by
    obtain ⟨c₀, hc₀, hp₀, h⟩ := (mem_flattenNodes_forest_succ comments fuel parentId c).1 h
    refine (mem_flattenNodes_forest_succ comments (fuel + 1) parentId x).2
      ⟨c₀, hc₀, hp₀, Or.inr ?_⟩
    rcases h with rfl | h
    · exact (mem_flattenNodes_forest_succ comments fuel _ x).2 ⟨x, hx, hp, Or.inl rfl⟩
    · exact child_mem_forest comments c x hx hp fuel (some c₀._id) h

/-- Every comment whose parent has a path to the root is in the forest once the depth
covers that path. -/
theorem mem_forest_of_rooted (comments : List Comment)
    {parentId : Option ObjectId} {path : List ObjectId} (hr : Rooted comments parentId path) :
    ∀ x ∈ comments, x.parentId = parentId → ∀ fuel, path.length < fuel →
      x ∈ flattenNodes (forest comments fuel none) := by
  induction hr with
  | root =>
    intro x hx hp fuel hfuel
    obtain ⟨f, rfl⟩ : ∃ f, fuel = f + 1 := ⟨fuel - 1, by omega⟩
    exact (mem_flattenNodes_forest_succ comments f none x).2 ⟨x, hx, hp, Or.inl rfl⟩
  | @step parentId path c₀ _ hc₀ hpar ih =>
    intro x hx hp fuel hfuel
    obtain ⟨f, rfl⟩ : ∃ f, fuel = f + 1 := ⟨fuel - 1, by omega⟩
    have h₀ := ih c₀ hc₀ hpar f (by simp only [List.length_cons] at hfuel; omega)
    exact child_mem_forest comments c₀ x hx hp f none h₀

/-! ## Well-formed lists -/

/-- A ranking that strictly grows from parent to child rules out cycles. -/
theorem acyclic_of_rank (comments : List Comment) (rank : ObjectId → Nat)
    (h : ∀ c ∈ comments, ∀ p, c.parentId = some p → rank p < rank c._id) :
    Acyclic comments := by
  have key : ∀ a b, Relation.TransGen (ParentEdge comments) a b → rank a < rank b := by
    intro a b hab
    induction hab with
    | single e =>
      obtain ⟨c, hc, rfl, hp⟩ := e
      exact h c hc _ hp
    | tail _ e ih =>
      obtain ⟨c, hc, rfl, hp⟩ := e
      exact lt_trans ih (h c hc _ hp)
  intro i hi
  exact lt_irrefl _ (key i i hi)

/-- In an acyclic list without dangling parents every comment has a path to the root. -/
theorem rooted_of_acyclic (comments : List Comment) (hres : ParentsResolve comments)
    (hacyc : Acyclic comments) :
    ∀ c ∈ comments, ∃ q, Rooted comments c.parentId q := by
  haveI : IsStrictOrder ObjectId (Relation.TransGen (ParentEdge comments)) :=
    { irrefl := hacyc
      trans := fun _ _ _ => Relation.TransGen.trans }
  have hwf := Set.wellFoundedOn_iff.1
    ((List.finite_toSet (comments.map Comment._id)).wellFoundedOn
      (r := Relation.TransGen (ParentEdge comments)))
  have key : ∀ i, ∀ c ∈ comments, c._id = i → ∃ q, Rooted comments c.parentId q := by
    intro i
    induction i using hwf.induction with
    | _ i ih =>
      intro c hc hid
      rcases hpar : c.parentId with _ | p
      · exact ⟨[], Rooted.root⟩
      · obtain ⟨c', hc', hid'⟩ := hres c hc p hpar
        have hedge : Relation.TransGen (ParentEdge comments) p i :=
          Relation.TransGen.single ⟨c, hc, hid, hpar⟩
        have hmp : p ∈ {x | x ∈ comments.map Comment._id} := by
          rw [← hid']; exact List.mem_map_of_mem _ hc'
        have hmi : i ∈ {x | x ∈ comments.map Comment._id} := by
          rw [← hid]; exact List.mem_map_of_mem _ hc
        obtain ⟨q, hq⟩ := ih p ⟨hedge, hmp, hmi⟩ c' hc' hid'
        exact ⟨c'._id :: q, hid' ▸ Rooted.step hq hc' rfl⟩
  intro c hc
  exact key c._id c hc rfl

/-! ## Claims on `processComments` -/

/-- A call that starts inside a cycle of parent references never comes back. -/
theorem processComments_cycle_diverges :
    ∀ fuel, processComments [7] cyclicComments fuel (some 1) = none ∧
      processComments [7] cyclicComments fuel (some 2) = none
  | 0 => ⟨rfl, rfl⟩
  | fuel + 1 => by
    obtain ⟨h1, h2⟩ := processComments_cycle_diverges fuel
    have hf1 : cyclicComments.filter (fun comment => comment.parentId == some 1) =
        [sampleComment 2 (some 1) 40] := rfl
    have hf2 : cyclicComments.filter (fun comment => comment.parentId == some 2) =
        [sampleComment 1 (some 2) 50] := rfl
    have hu : ∀ id parentId createdAt,
        List.contains [7] (sampleComment id parentId createdAt).userId = true :=
      fun _ _ _ => rfl
    constructor
    · rw [processComments, hf1]
      simp only [List.map_cons, List.map_nil, hu, if_true]
      rw [show (sampleComment 2 (some 1) 40)._id = 2 from rfl, h2]
      rfl
    · rw [processComments, hf2]
      simp only [List.map_cons, List.map_nil, hu, if_true]
      rw [show (sampleComment 1 (some 2) 50)._id = 1 from rfl, h1]
      rfl

/-- C4: for a list with pairwise-distinct ids, cyclic parent references included, and whatever
users are stored, the top-level call `processComments()` comes back (with its value, or with
the error of line 124) once the call depth exceeds the number of comments, and so does every
call `processComments(comment._id)` of the `forEach` over the top-level comments; when every
author is stored it returns a forest, and `getCommentsByPost` obtains its
`topLevelComments`. -/
theorem processComments_terminates (users : List ObjectId) (comments : List Comment)
    (hids : (comments.map Comment._id).Nodup) (fuel : Nat) (hfuel : comments.length < fuel) :
    (∃ outcome, processComments users comments fuel none = some outcome ∧
        topLevelComments users comments fuel = some outcome) ∧
      ((∀ c ∈ comments, c.userId ∈ users) →
        ∃ tops, processComments users comments fuel none = some (Completion.returned tops) ∧
          topLevelComments users comments fuel = some (Completion.returned tops)) := by
  constructor
  · obtain ⟨o, ho⟩ := processComments_isSome users comments fuel none _
      (processPopulated_of_rooted comments hids fuel none [] Rooted.root (by simpa using hfuel))
    exact ⟨o, ho, topLevelComments_eq users comments fuel o ho⟩
  · intro hauth
    exact ⟨forest comments fuel none,
      topLevelComments_eq_forest users comments hids hauth fuel hfuel⟩

theorem processComments_terminates_witness :
    (cyclicComments.map Comment._id).Nodup ∧ cyclicComments.length < 6 ∧
      (∀ c ∈ cyclicComments, c.userId ∈ [7]) ∧
      (∃ outcome, processComments [7] cyclicComments 6 none = some outcome ∧
        topLevelComments [7] cyclicComments 6 = some outcome) ∧
      (∃ tops, processComments [7] cyclicComments 6 none = some (Completion.returned tops) ∧
        topLevelComments [7] cyclicComments 6 = some (Completion.returned tops)) ∧
      ∃ outcome, processComments [] cyclicComments 6 none = some outcome ∧
        topLevelComments [] cyclicComments 6 = some outcome :=
  ⟨by decide, by decide, by decide,
    (processComments_terminates [7] cyclicComments (by decide) 6 (by decide)).1,
    (processComments_terminates [7] cyclicComments (by decide) 6 (by decide)).2 (by decide),
    (processComments_terminates [] cyclicComments (by decide) 6 (by decide)).1⟩

/-- C1, as stated, fails: a reply whose parent was deleted has distinct ids and acyclic parent
references, and its author is stored, yet the forest built for it is empty while the list
holds one comment. -/
theorem count_orphan_counterexample :
    (orphanComments.map Comment._id).Nodup ∧ Acyclic orphanComments ∧
      (∀ c ∈ orphanComments, c.userId ∈ [7]) ∧
      topLevelComments [7] orphanComments 2 = some (Completion.returned []) ∧
      countNodes [] ≠ orphanComments.length := by
  refine ⟨by decide, ?_, by decide, by rfl, by decide⟩
  exact acyclic_of_rank orphanComments id (by simp [orphanComments, sampleComment])

/-- C1, amended: for a list with pairwise-distinct ids, acyclic parent references, no
dangling parent, and every author among the stored users, `getCommentsByPost` obtains a forest
that holds every comment of the list exactly once, so its node count (nested replies included)
is the length of the list. -/
theorem topLevelComments_count (users : List ObjectId) (comments : List Comment)
    (hids : (comments.map Comment._id).Nodup) (hres : ParentsResolve comments)
    (hacyc : Acyclic comments) (hauth : ∀ c ∈ comments, c.userId ∈ users)
    (fuel : Nat) (hfuel : comments.length < fuel) :
    ∃ tops, topLevelComments users comments fuel = some (Completion.returned tops) ∧
      (flattenNodes tops).Perm comments ∧ countNodes tops = comments.length := by
  have hperm : (flattenNodes (forest comments fuel none)).Perm comments := by
    refine (List.perm_ext_iff_of_nodup
      (nodup_flattenNodes_forest comments hids fuel none [] Rooted.root)
      (List.Nodup.of_map _ hids)).2 (fun x => ⟨fun hx => ?_, fun hx => ?_⟩)
    · exact (rooted_of_mem_forest comments x fuel none [] Rooted.root hx).1
    · obtain ⟨q, hq⟩ := rooted_of_acyclic comments hres hacyc x hx
      have := hq.length_le hids
      exact mem_forest_of_rooted comments hq x hx rfl fuel (by omega)
  refine ⟨forest comments fuel none,
    (topLevelComments_eq_forest users comments hids hauth fuel hfuel).2, hperm, ?_⟩
  rw [countNodes_eq_length, hperm.length_eq]

theorem topLevelComments_count_witness :
    (threadComments.map Comment._id).Nodup ∧ ParentsResolve threadComments ∧
      Acyclic threadComments ∧ (∀ c ∈ threadComments, c.userId ∈ [7]) ∧
      threadComments.length < 4 ∧
      ∃ tops, topLevelComments [7] threadComments 4 = some (Completion.returned tops) ∧
        (flattenNodes tops).Perm threadComments ∧ countNodes tops = threadComments.length :=
  have hres : ParentsResolve threadComments := by
    simp [ParentsResolve, threadComments, sampleComment]
  have hacyc : Acyclic threadComments :=
    acyclic_of_rank threadComments id (by simp [threadComments, sampleComment])
  ⟨by decide, hres, hacyc, by decide, by decide,
    topLevelComments_count [7] threadComments (by decide) hres hacyc (by decide) 4
      (by decide)⟩

/-! ## Reply chains -/

theorem IsChainFrom.parent_mem {parentId : Option ObjectId} {l : List Comment}
    (h : IsChainFrom parentId l) :
    ∀ x ∈ l, x.parentId = parentId ∨ ∃ y ∈ l, x.parentId = some y._id := by
  induction l generalizing parentId with
  | nil => intro x hx; simp at hx
  | cons c rest ih =>
    intro x hx
    rcases List.mem_cons.1 hx with rfl | hx
    · exact Or.inl h.1
    · rcases ih h.2 x hx with h' | ⟨y, hy, h'⟩
      · exact Or.inr ⟨c, List.mem_cons_self c rest, h'⟩
      · exact Or.inr ⟨y, List.mem_cons_of_mem c hy, h'⟩

theorem depthNodes_nestPath : ∀ l : List Comment, depthNodes (nestPath l) = l.length
  | [] => rfl
  | c :: rest => by
    simp only [nestPath, depthNodes, CommentNode.depth, depthNodes_nestPath rest,
      List.length_cons]
    omega

/-- Below the last comment of `pre` the forest of a chain `pre ++ suf` is the path `suf`. -/
theorem forest_chain :
    ∀ (suf pre : List Comment) (parentId : Option ObjectId) (fuel : Nat),
      ((pre ++ suf).map Comment._id).Nodup → IsChainFrom parentId suf →
      (∀ x ∈ pre, x.parentId ≠ parentId) →
      (∀ i, parentId = some i → i ∉ suf.map Comment._id) →
      (∀ x ∈ pre, ∀ y ∈ suf, x.parentId ≠ some y._id) →
      suf.length < fuel → forest (pre ++ suf) fuel parentId = nestPath suf
  | [], pre, parentId, fuel, _, _, hA, _, _, hfuel => by
    obtain ⟨f, rfl⟩ : ∃ f, fuel = f + 1 := ⟨fuel - 1, by omega⟩
    have hf : (pre ++ []).filter (fun comment : Comment => comment.parentId == parentId) =
        [] := by
      rw [List.filter_eq_nil_iff]
      intro x hx
      simpa using hA x (by simpa using hx)
    rw [forest, hf]
    rfl
  | c :: rest, pre, parentId, fuel, hids, hchain, hA, hI2, hI3, hfuel => by
    obtain ⟨f, rfl⟩ : ∃ f, fuel = f + 1 := ⟨fuel - 1, by omega⟩
    have hidc : ∀ y ∈ rest, y._id ≠ c._id := by
      have h1 : ((c :: rest).map Comment._id).Nodup := by
        rw [List.map_append] at hids
        exact (List.nodup_append.1 hids).2.1
      rw [List.map_cons, List.nodup_cons] at h1
      intro y hy e
      exact h1.1 (e ▸ List.mem_map_of_mem _ hy)
    have hB : ∀ x ∈ rest, x.parentId ≠ parentId := by
      intro x hx e
      rcases hchain.2.parent_mem x hx with h' | ⟨y, hy, h'⟩
      · exact hI2 c._id (e.symm.trans h') (by simp)
      · exact hI2 y._id (e.symm.trans h') (List.mem_map_of_mem _ (List.mem_cons_of_mem c hy))
    have hf : (pre ++ c :: rest).filter
        (fun comment : Comment => comment.parentId == parentId) = [c] := by
      rw [List.filter_append, List.filter_cons]
      have h1 : pre.filter (fun comment => comment.parentId == parentId) = [] := by
        rw [List.filter_eq_nil_iff]
        intro x hx
        simpa using hA x hx
      have h2 : rest.filter (fun comment => comment.parentId == parentId) = [] := by
        rw [List.filter_eq_nil_iff]
        intro x hx
        simpa using hB x hx
      simp [h1, h2, hchain.1]
    have hrec := forest_chain rest (pre ++ [c]) (some c._id) f
      (by simpa using hids) hchain.2
      (by
        intro x hx e
        rcases List.mem_append.1 hx with hx | hx
        · exact hI3 x hx c (List.mem_cons_self c rest) e
        · obtain rfl : x = c := by simpa using hx
          exact hI2 x._id (hchain.1.symm.trans e) (by simp))
      (by
        intro i hi hmem
        obtain ⟨y, hy, hyi⟩ := List.mem_map.1 hmem
        exact hidc y hy (hyi.trans (Option.some.inj hi).symm))
      (by
        intro x hx y hy e
        rcases List.mem_append.1 hx with hx | hx
        · exact hI3 x hx y (List.mem_cons_of_mem c hy) e
        · obtain rfl : x = c := by simpa using hx
          exact hI2 y._id (hchain.1.symm.trans e)
            (List.mem_map_of_mem _ (List.mem_cons_of_mem x hy)))
      (by simp only [List.length_cons] at hfuel; omega)
    rw [forest, hf]
    simp only [List.map_cons, List.map_nil, nestPath]
    rw [← hrec]
    simp

/-- When every author is stored, a chain `c₁, ..., cₙ` (`n ≥ 1`) with distinct ids, where
`c₁` is top-level and every further comment replies to its predecessor, gives the single
top-level node `c₁` whose replies are exactly `[c₂]`, whose replies are exactly `[c₃]`, and so
on: one path of depth `n`. -/
theorem processComments_chain_populated (users : List ObjectId) (c₁ : Comment)
    (rest : List Comment)
    (hids : ((c₁ :: rest).map Comment._id).Nodup) (hchain : IsChainFrom none (c₁ :: rest))
    (hauth : ∀ c ∈ c₁ :: rest, c.userId ∈ users)
    (fuel : Nat) (hfuel : (c₁ :: rest).length < fuel) :
    processComments users (c₁ :: rest) fuel none =
        some (Completion.returned [CommentNode.mk c₁ (nestPath rest)]) ∧
      topLevelComments users (c₁ :: rest) fuel =
        some (Completion.returned [CommentNode.mk c₁ (nestPath rest)]) ∧
      depthNodes [CommentNode.mk c₁ (nestPath rest)] = (c₁ :: rest).length := by
  have h := topLevelComments_eq_forest users (c₁ :: rest) hids hauth fuel hfuel
  have hf : forest (c₁ :: rest) fuel none = nestPath (c₁ :: rest) :=
    forest_chain (c₁ :: rest) [] none fuel (by simpa using hids) hchain
      (by simp) (by simp) (by simp) hfuel
  rw [hf] at h
  exact ⟨h.1, h.2, depthNodes_nestPath (c₁ :: rest)⟩

/-- C6 on the code: the chain `1 ← 2 ← 3` of the scenario has distinct ids, its first comment
is top-level and every further comment replies to its predecessor, but the author of comment 2
is no longer stored. Whether the list is taken in chain order or as the query returns it
(newest first), `processComments` yields no node: line 124 throws, and `getCommentsByPost`
answers 500. With that author stored the same chain gives the single path of depth 3. -/
theorem processComments_chain_author_missing :
    (deletedAuthorThread.map Comment._id).Nodup ∧ IsChainFrom none deletedAuthorThread ∧
      (∃ c ∈ deletedAuthorThread, c.userId ∉ [7]) ∧
      processComments [7] deletedAuthorThread 4 none = some (Completion.threw "TypeError") ∧
      topLevelComments [7] deletedAuthorThread 4 = some (Completion.threw "TypeError") ∧
      getCommentsStatus [7] deletedAuthorThread 4 = some 500 ∧
      processComments [7] deletedAuthorThread.reverse 4 none =
        some (Completion.threw "TypeError") ∧
      getCommentsStatus [7] deletedAuthorThread.reverse 4 = some 500 ∧
      processComments [7, 8] deletedAuthorThread 4 none =
        some (Completion.returned (nestPath deletedAuthorThread)) ∧
      getCommentsStatus [7, 8] deletedAuthorThread 4 = some 200 ∧
      depthNodes (nestPath deletedAuthorThread) = 3 :=
  ⟨by decide, ⟨rfl, rfl, rfl, trivial⟩, by decide, rfl, rfl, rfl, rfl, rfl, rfl, rfl, rfl⟩

/-! ## The rendered comment list -/

instance : IsTotal StoreComment (fun a b => b.createdAt ≤ a.createdAt) :=
  ⟨fun a b => le_total b.createdAt a.createdAt⟩

instance : IsTrans StoreComment (fun a b => b.createdAt ≤ a.createdAt) :=
  ⟨fun _ _ _ hab hbc => le_trans hbc hab⟩

theorem sorted_sortNewestFirst (l : List StoreComment) :
    (sortNewestFirst l).Sorted (fun a b => b.createdAt ≤ a.createdAt) :=
  List.sorted_insertionSort _ l

/-- The sort keeps the input order of two records with equal `createdAt`. -/
theorem sortNewestFirst_stable (l : List StoreComment) (a b : StoreComment)
    (hab : a.createdAt = b.createdAt) (hsub : List.Sublist [a, b] l) :
    List.Sublist [a, b] (sortNewestFirst l) :=
  List.pair_sublist_insertionSort (le_of_eq hab.symm) hsub

theorem mem_sortedComments {commentsArr : List StoreComment} {parentId : Option Nat}
    {c : StoreComment} :
    c ∈ sortedComments commentsArr parentId ↔
      c ∈ commentsArr ∧ c._id.isSome ∧ c.parentId = parentId := by
  simp [sortedComments, sortNewestFirst, filteredComments, List.mem_insertionSort]

theorem find?_of_nodup_map {α β : Type} [BEq β] [LawfulBEq β] (f : α → β) :
    ∀ (l : List α), (l.map f).Nodup → ∀ c ∈ l, l.find? (fun x => f x == f c) = some c
  | [], _, c, hc => by simp at hc
  | a :: l, hnd, c, hc => by
    rw [List.map_cons, List.nodup_cons] at hnd
    rcases List.mem_cons.1 hc with rfl | hc
    · simp
    · have hne : f a ≠ f c := fun e => hnd.1 (e ▸ List.mem_map_of_mem f hc)
      rw [List.find?_cons_of_neg _ (by simpa using hne)]
      exact find?_of_nodup_map f l hnd.2 c hc

/-- With pairwise-distinct ids the lookup of a record's id gives the record back. -/
theorem commentsByIdGet_of_nodup (commentsArr : List StoreComment)
    (hids : (commentsArr.map StoreComment._id).Nodup) (c : StoreComment)
    (hc : c ∈ commentsArr) : commentsByIdGet commentsArr c._id = some c := by
  rw [commentsByIdGet]
  exact find?_of_nodup_map StoreComment._id commentsArr.reverse
    (by rw [List.map_reverse]; exact List.nodup_reverse.2 hids) c (List.mem_reverse.2 hc)

/-- The lookup of a record's id always finds a record of the list with that id. -/
theorem commentsByIdGet_of_mem (commentsArr : List StoreComment) (c : StoreComment)
    (hc : c ∈ commentsArr) :
    ∃ c', commentsByIdGet commentsArr c._id = some c' ∧ c' ∈ commentsArr ∧ c'._id = c._id := by
  rw [commentsByIdGet]
  rcases h : commentsArr.reverse.find? (fun comment => comment._id == c._id) with _ | c'
  · rw [List.find?_eq_none] at h
    exact absurd (by simp) (h c (List.mem_reverse.2 hc))
  · exact ⟨c', h, List.mem_reverse.1 (List.mem_of_find?_eq_some h),
      by simpa using List.find?_some h⟩

theorem map_comment_renderLevels_succ (commentsArr : List StoreComment) (levels : Nat)
    (parentId : Option Nat) :
    (renderLevels commentsArr (levels + 1) parentId).map CommentView.comment =
      (sortedComments commentsArr parentId).filterMap
        (fun comment => commentsByIdGet commentsArr comment._id) := by
  rw [renderLevels, List.map_filterMap]
  refine List.filterMap_congr (fun c _ => ?_)
  cases commentsByIdGet commentsArr c._id <;> rfl

theorem filterMap_eq_map_of_some {α β : Type} (f : α → Option β) (g : α → β) (l : List α)
    (h : ∀ x ∈ l, f x = some (g x)) : l.filterMap f = l.map g := by
  rw [← List.filterMap_eq_map]
  exact List.filterMap_congr (fun x hx => by simp [h x hx])

/-- With pairwise-distinct ids every sorted sibling is rendered as itself. -/
theorem renderLevels_succ_of_nodup (commentsArr : List StoreComment)
    (hids : (commentsArr.map StoreComment._id).Nodup) (levels : Nat) (parentId : Option Nat) :
    renderLevels commentsArr (levels + 1) parentId =
      (sortedComments commentsArr parentId).map
        (fun c => CommentView.mk c (renderLevels commentsArr levels c._id)) := by
  rw [renderLevels]
  refine filterMap_eq_map_of_some _ _ _ (fun c hc => ?_)
  rw [commentsByIdGet_of_nodup commentsArr hids c (mem_sortedComments.1 hc).1]
  rfl

theorem map_comment_renderLevels_of_nodup (commentsArr : List StoreComment)
    (hids : (commentsArr.map StoreComment._id).Nodup) (levels : Nat) (parentId : Option Nat) :
    (renderLevels commentsArr (levels + 1) parentId).map CommentView.comment =
      sortedComments commentsArr parentId := by
  rw [renderLevels_succ_of_nodup commentsArr hids, List.map_map]
  exact (List.map_congr_left (fun c _ => rfl)).trans (List.map_id _)

/-- C7, as stated, fails: when two records share an id, the later one is shown in the place
of both, so the top-level siblings come out with creation times 1, 3, 1. -/
theorem siblings_sorted_counterexample :
    (renderCommentList staleRecords).map (fun v => v.comment.createdAt) = [1, 3, 1] ∧
      ¬ ((renderCommentList staleRecords).map CommentView.comment).Sorted
          (fun a b => b.createdAt ≤ a.createdAt) := by
  constructor
  · decide
  · decide

/-- C7, amended: for a list with pairwise-distinct ids (and valid `createdAt`), the siblings
that `renderComments` outputs under any parent id, `null` included, at any depth, are in
non-increasing `createdAt` order. -/
theorem renderComments_siblings_sorted (commentsArr : List StoreComment)
    (hids : (commentsArr.map StoreComment._id).Nodup) (parentId : Option Nat)
    (depth maxDepth : Nat) :
    ((renderComments commentsArr parentId depth maxDepth).map CommentView.comment).Sorted
      (fun a b => b.createdAt ≤ a.createdAt) := by
  rw [renderComments]
  cases maxDepth + 1 - depth with
  | zero => exact List.sorted_nil
  | succ levels =>
    rw [map_comment_renderLevels_of_nodup commentsArr hids]
    exact sorted_sortNewestFirst _

theorem renderComments_siblings_sorted_witness :
    (tiedRecords.map StoreComment._id).Nodup ∧
      ((renderComments tiedRecords none 0 10).map CommentView.comment).Sorted
        (fun a b => b.createdAt ≤ a.createdAt) :=
  ⟨by decide, renderComments_siblings_sorted tiedRecords (by decide) none 0 10⟩

/-- C8, as stated, fails. In a list where the record with id 1 occurs twice, the siblings
`first` (id 1) and `second` (id 2) have equal `createdAt` and occur in that order, yet `first`
is not output at all: the later record with id 1 is shown in its place, before and after
`second`. A call below the depth limit outputs no sibling, and a sibling without an `_id` is
dropped by the filter. -/
theorem stable_duplicate_counterexample :
    textRecord 1 "first" ∈ filteredComments duplicateTied none ∧
      textRecord 2 "second" ∈ filteredComments duplicateTied none ∧
      (textRecord 1 "first").createdAt = (textRecord 2 "second").createdAt ∧
      List.Sublist [textRecord 1 "first", textRecord 2 "second"] duplicateTied ∧
      (renderCommentList duplicateTied).map CommentView.comment =
        [textRecord 1 "edited", textRecord 2 "second", textRecord 1 "edited"] ∧
      textRecord 1 "first" ∉ (renderCommentList duplicateTied).map CommentView.comment ∧
      ¬ List.Sublist [textRecord 1 "first", textRecord 2 "second"]
          ((renderCommentList duplicateTied).map CommentView.comment) ∧
      renderComments tiedRecords none 11 10 = [] ∧
      (renderCommentList [sampleRecord none none 5, sampleRecord (some 2) none 5]).map
          CommentView.comment = [sampleRecord (some 2) none 5] := by
  refine ⟨by decide, by decide, rfl, by decide, by decide, by decide, by decide, rfl,
    by decide⟩

/-- C8, amended: take a list with pairwise-distinct ids, any parent id (`null` included) and
any depth within the limit, and two siblings `a`, `b` under that parent (records kept by the
filter: they carry an `_id`) with equal `createdAt`, `a` occurring before `b` in the input
list. Then `renderComments` outputs `a` and `b`, and `a` before `b`. -/
theorem renderComments_stable (commentsArr : List StoreComment)
    (hids : (commentsArr.map StoreComment._id).Nodup) (parentId : Option Nat)
    (depth maxDepth : Nat) (hdepth : depth ≤ maxDepth) (a b : StoreComment)
    (ha : a ∈ filteredComments commentsArr parentId)
    (hb : b ∈ filteredComments commentsArr parentId)
    (hab : a.createdAt = b.createdAt) (hsub : List.Sublist [a, b] commentsArr) :
    List.Sublist [a, b]
      ((renderComments commentsArr parentId depth maxDepth).map CommentView.comment) := by
  have ha' := List.mem_filter.1 ha
  have hb' := List.mem_filter.1 hb
  obtain ⟨levels, hl⟩ : ∃ levels, maxDepth + 1 - depth = levels + 1 :=
    ⟨maxDepth - depth, by omega⟩
  rw [renderComments, hl, map_comment_renderLevels_of_nodup commentsArr hids]
  have h1 : List.Sublist [a, b] (filteredComments commentsArr parentId) := by
    have := hsub.filter
      (fun comment : StoreComment => comment._id.isSome && (comment.parentId == parentId))
    simpa [filteredComments, List.filter_cons, ha'.2, hb'.2] using this
  exact List.pair_sublist_insertionSort (le_of_eq hab.symm) h1

theorem renderComments_stable_witness :
    (tiedRecords.map StoreComment._id).Nodup ∧ (0 : Nat) ≤ 10 ∧
      sampleRecord (some 1) none 5 ∈ filteredComments tiedRecords none ∧
      sampleRecord (some 2) none 5 ∈ filteredComments tiedRecords none ∧
      List.Sublist [sampleRecord (some 1) none 5, sampleRecord (some 2) none 5] tiedRecords ∧
      List.Sublist [sampleRecord (some 1) none 5, sampleRecord (some 2) none 5]
        ((renderComments tiedRecords none 0 10).map CommentView.comment) :=
  ⟨by decide, by decide, by decide, by decide, by decide,
    renderComments_stable tiedRecords (by decide) none 0 10 (by decide)
      (sampleRecord (some 1) none 5) (sampleRecord (some 2) none 5)
      (by decide) (by decide) rfl (by decide)⟩

/-! ## Which records are rendered -/

theorem record_eq_of_id_eq {commentsArr : List StoreComment}
    (hids : (commentsArr.map StoreComment._id).Nodup) {a b : StoreComment}
    (ha : a ∈ commentsArr) (hb : b ∈ commentsArr) (h : a._id = b._id) : a = b :=
  List.inj_on_of_nodup_map hids ha hb h

theorem flattenViews_map (l : List StoreComment) (g : StoreComment → List CommentView) :
    flattenViews (l.map (fun c => CommentView.mk c (g c))) =
      l.flatMap (fun c => c :: flattenViews (g c)) := by
  induction l with
  | nil => rfl
  | cons a l ih => simp [flattenViews, CommentView.flatten, ih]

theorem mem_flattenViews_of_mem_map : ∀ (vs : List CommentView) (x : StoreComment),
    x ∈ vs.map CommentView.comment → x ∈ flattenViews vs
  | [], x, h => by simp at h
  | .mk c ch :: vs, x, h => by
    rw [List.map_cons, List.mem_cons] at h
    rw [flattenViews, CommentView.flatten, List.mem_append]
    rcases h with rfl | h
    · exact Or.inl (List.mem_cons_self _ _)
    · exact Or.inr (mem_flattenViews_of_mem_map vs x h)

theorem flattenViews_viewPath : ∀ l : List StoreComment, flattenViews (viewPath l) = l
  | [] => rfl
  | c :: rest => by
    simp [viewPath, flattenViews, CommentView.flatten, flattenViews_viewPath rest]

theorem mem_flattenViews_renderLevels_succ (commentsArr : List StoreComment)
    (hids : (commentsArr.map StoreComment._id).Nodup) (levels : Nat) (parentId : Option Nat)
    (x : StoreComment) :
    x ∈ flattenViews (renderLevels commentsArr (levels + 1) parentId) ↔
      ∃ c ∈ commentsArr, c._id.isSome ∧ c.parentId = parentId ∧
        (x = c ∨ x ∈ flattenViews (renderLevels commentsArr levels c._id)) := by
  rw [renderLevels_succ_of_nodup commentsArr hids, flattenViews_map]
  simp only [List.mem_flatMap, List.mem_cons, mem_sortedComments]
  constructor
  · rintro ⟨c, ⟨hc, hi, hp⟩, h⟩
    exact ⟨c, hc, hi, hp, h⟩
  · rintro ⟨c, hc, hi, hp, h⟩
    exact ⟨c, ⟨hc, hi, hp⟩, h⟩

/-- A rendered record hangs from the requested parent or from a stored record. -/
theorem parent_of_rendered (commentsArr : List StoreComment)
    (hids : (commentsArr.map StoreComment._id).Nodup) (x : StoreComment) :
    ∀ (levels : Nat) (parentId : Option Nat),
      x ∈ flattenViews (renderLevels commentsArr levels parentId) →
      x.parentId = parentId ∨ ∃ y ∈ commentsArr, y._id.isSome ∧ x.parentId = y._id
  | 0, _, h => by simp [renderLevels, flattenViews] at h
  | levels + 1, parentId, h => by
    obtain ⟨c, hc, hi, hp, h⟩ :=
      (mem_flattenViews_renderLevels_succ commentsArr hids levels parentId x).1 h
    rcases h with rfl | h
    · exact Or.inl hp
    · rcases parent_of_rendered commentsArr hids x levels c._id h with h' | h'
      · exact Or.inr ⟨c, hc, hi, h'⟩
      · exact Or.inr h'

/-- A record on a two-cycle of parent references is rendered under no parent off the cycle. -/
theorem cycle_not_rendered (commentsArr : List StoreComment)
    (hids : (commentsArr.map StoreComment._id).Nodup) (a b : StoreComment)
    (ha : a ∈ commentsArr) (hb : b ∈ commentsArr)
    (hab : a.parentId = b._id) (hba : b.parentId = a._id) :
    ∀ (levels : Nat) (parentId : Option Nat), parentId ≠ a._id → parentId ≠ b._id →
      a ∉ flattenViews (renderLevels commentsArr levels parentId)
  | 0, _, _, _ => by simp [renderLevels, flattenViews]
  | levels + 1, parentId, hna, hnb => by
    intro h
    obtain ⟨c, hc, _, hp, h⟩ :=
      (mem_flattenViews_renderLevels_succ commentsArr hids levels parentId a).1 h
    rcases h with rfl | h
    · exact hnb (hp.symm.trans hab)
    · refine cycle_not_rendered commentsArr hids a b ha hb hab hba levels c._id ?_ ?_ h
      · intro e
        have hca : c = a := record_eq_of_id_eq hids hc ha e
        exact hnb (hp.symm.trans (hca ▸ hab))
      · intro e
        have hcb : c = b := record_eq_of_id_eq hids hc hb e
        exact hna (hp.symm.trans (hcb ▸ hba))

/-- C2, as stated, fails: the reply with the dangling `parentId` 1 is not among the
top-level nodes of `renderComments(list)`, which shows only the record with id 3. -/
theorem orphan_counterexample :
    sampleRecord (some 2) (some 1) 10 ∈ orphanRecords ∧
      (∀ x ∈ orphanRecords, x._id ≠ some 1) ∧
      (renderCommentList orphanRecords).map CommentView.comment =
        [sampleRecord (some 3) none 20] ∧
      sampleRecord (some 2) (some 1) 10 ∉
        (renderCommentList orphanRecords).map CommentView.comment := by
  refine ⟨by decide, by decide, by decide, by decide⟩

/-- C2, amended: in a list with pairwise-distinct ids, a comment whose `parentId` is non-null
but is the id of no comment of the list is not placed at top level by `renderComments(list)`,
nor anywhere below: it is not rendered. -/
theorem renderComments_orphan_hidden (commentsArr : List StoreComment)
    (hids : (commentsArr.map StoreComment._id).Nodup) (c : StoreComment) (p : Nat)
    (hp : c.parentId = some p) (hdangling : ∀ x ∈ commentsArr, x._id ≠ some p) :
    c ∉ (renderCommentList commentsArr).map CommentView.comment ∧
      c ∉ flattenViews (renderCommentList commentsArr) := by
  have key : c ∉ flattenViews (renderCommentList commentsArr) := by
    intro h
    rcases parent_of_rendered commentsArr hids c _ none h with h' | ⟨y, hy, _, h'⟩
    · rw [hp] at h'
      cases h'
    · exact hdangling y hy (h'.symm.trans hp)
  exact ⟨fun h => key (mem_flattenViews_of_mem_map _ c h), key⟩

theorem renderComments_orphan_hidden_witness :
    (orphanRecords.map StoreComment._id).Nodup ∧
      (sampleRecord (some 2) (some 1) 10).parentId = some 1 ∧
      (∀ x ∈ orphanRecords, x._id ≠ some 1) ∧
      sampleRecord (some 2) (some 1) 10 ∉
        (renderCommentList orphanRecords).map CommentView.comment ∧
      sampleRecord (some 2) (some 1) 10 ∉ flattenViews (renderCommentList orphanRecords) :=
  ⟨by decide, rfl, by decide,
    renderComments_orphan_hidden orphanRecords (by decide)
      (sampleRecord (some 2) (some 1) 10) 1 rfl (by decide)⟩

/-- C3, as stated, fails: of two records that name each other as parent, neither is among
the top-level nodes of `renderComments(list)`, which shows only the record with id 3. -/
theorem cycle_counterexample :
    sampleRecord (some 1) (some 2) 20 ∈ cycleRecords ∧
      sampleRecord (some 2) (some 1) 10 ∈ cycleRecords ∧
      (sampleRecord (some 1) (some 2) 20).parentId = (sampleRecord (some 2) (some 1) 10)._id ∧
      (sampleRecord (some 2) (some 1) 10).parentId = (sampleRecord (some 1) (some 2) 20)._id ∧
      (renderCommentList cycleRecords).map CommentView.comment =
        [sampleRecord (some 3) none 30] ∧
      ¬ (sampleRecord (some 1) (some 2) 20 ∈
            (renderCommentList cycleRecords).map CommentView.comment ∧
          sampleRecord (some 2) (some 1) 10 ∈
            (renderCommentList cycleRecords).map CommentView.comment) := by
  refine ⟨by decide, by decide, rfl, rfl, by decide, by decide⟩

/-- C3, amended: in a list with pairwise-distinct ids, two comments `a` and `b` with non-empty
ids, `a.parentId = b.id` and `b.parentId = a.id` are both absent from the top-level nodes of
`renderComments(list)` and from every nested level: neither is rendered. -/
theorem renderComments_cycle_hidden (commentsArr : List StoreComment)
    (hids : (commentsArr.map StoreComment._id).Nodup) (a b : StoreComment)
    (ha : a ∈ commentsArr) (hb : b ∈ commentsArr)
    (hia : a._id.isSome) (hib : b._id.isSome)
    (hab : a.parentId = b._id) (hba : b.parentId = a._id) :
    (a ∉ (renderCommentList commentsArr).map CommentView.comment ∧
        b ∉ (renderCommentList commentsArr).map CommentView.comment) ∧
      a ∉ flattenViews (renderCommentList commentsArr) ∧
      b ∉ flattenViews (renderCommentList commentsArr) := by
  have hna : (none : Option Nat) ≠ a._id := fun e => by rw [← e] at hia; cases hia
  have hnb : (none : Option Nat) ≠ b._id := fun e => by rw [← e] at hib; cases hib
  have ka : a ∉ flattenViews (renderCommentList commentsArr) :=
    cycle_not_rendered commentsArr hids a b ha hb hab hba _ none hna hnb
  have kb : b ∉ flattenViews (renderCommentList commentsArr) :=
    cycle_not_rendered commentsArr hids b a hb ha hba hab _ none hnb hna
  exact ⟨⟨fun h => ka (mem_flattenViews_of_mem_map _ a h),
    fun h => kb (mem_flattenViews_of_mem_map _ b h)⟩, ka, kb⟩

theorem renderComments_cycle_hidden_witness :
    (cycleRecords.map StoreComment._id).Nodup ∧
      (sampleRecord (some 1) (some 2) 20 ∉
          (renderCommentList cycleRecords).map CommentView.comment ∧
        sampleRecord (some 2) (some 1) 10 ∉
          (renderCommentList cycleRecords).map CommentView.comment) ∧
      sampleRecord (some 1) (some 2) 20 ∉ flattenViews (renderCommentList cycleRecords) ∧
      sampleRecord (some 2) (some 1) 10 ∉ flattenViews (renderCommentList cycleRecords) :=
  ⟨by decide,
    renderComments_cycle_hidden cycleRecords (by decide)
      (sampleRecord (some 1) (some 2) 20) (sampleRecord (some 2) (some 1) 10)
      (by decide) (by decide) rfl rfl rfl rfl⟩

/-! ## Reply chains in the rendered list -/

theorem IsThreadFrom.thread_parent_mem {parentId : Option Nat} {l : List StoreComment}
    (h : IsThreadFrom parentId l) :
    ∀ x ∈ l, x.parentId = parentId ∨ ∃ y ∈ l, x.parentId = y._id := by
  induction l generalizing parentId with
  | nil => intro x hx; simp at hx
  | cons c rest ih =>
    intro x hx
    rcases List.mem_cons.1 hx with rfl | hx
    · exact Or.inl h.2.1
    · rcases ih h.2.2 x hx with h' | ⟨y, hy, h'⟩
      · exact Or.inr ⟨c, List.mem_cons_self c rest, h'⟩
      · exact Or.inr ⟨y, List.mem_cons_of_mem c hy, h'⟩

theorem IsThreadFrom.isSome_id {parentId : Option Nat} {l : List StoreComment}
    (h : IsThreadFrom parentId l) : ∀ x ∈ l, x._id ≠ none := by
  induction l generalizing parentId with
  | nil => intro x hx; simp at hx
  | cons c rest ih =>
    intro x hx
    rcases List.mem_cons.1 hx with rfl | hx
    · intro e
      have := h.1
      rw [e] at this
      cases this
    · exact ih h.2.2 x hx

/-- Below the last record of `pre` a chain `pre ++ suf` is rendered as the path of the first
`levels` records of `suf`. -/
theorem renderLevels_thread :
    ∀ (suf pre : List StoreComment) (parentId : Option Nat) (levels : Nat),
      ((pre ++ suf).map StoreComment._id).Nodup → IsThreadFrom parentId suf →
      (∀ x ∈ pre, x.parentId ≠ parentId) →
      (∀ y ∈ suf, y._id ≠ parentId) →
      (∀ x ∈ pre, ∀ y ∈ suf, x.parentId ≠ y._id) →
      renderLevels (pre ++ suf) levels parentId = viewPath (suf.take levels)
  | _, _, _, 0, _, _, _, _, _ => by simp [renderLevels, viewPath]
  | [], pre, parentId, levels + 1, hids, _, hA, _, _ => by
    have hf : filteredComments (pre ++ []) parentId = [] := by
      rw [filteredComments, List.filter_eq_nil_iff]
      intro x hx
      have := hA x (by simpa using hx)
      simp [this]
    rw [renderLevels_succ_of_nodup _ hids, sortedComments, hf]
    rfl
  | c :: rest, pre, parentId, levels + 1, hids, hthread, hA, hI2, hI3 => by
    have hidc : ∀ y ∈ rest, y._id ≠ c._id := by
      have h1 : ((c :: rest).map StoreComment._id).Nodup := by
        rw [List.map_append] at hids
        exact (List.nodup_append.1 hids).2.1
      rw [List.map_cons, List.nodup_cons] at h1
      intro y hy e
      exact h1.1 (e ▸ List.mem_map_of_mem _ hy)
    have hB : ∀ x ∈ rest, x.parentId ≠ parentId := by
      intro x hx e
      rcases hthread.2.2.thread_parent_mem x hx with h' | ⟨y, hy, h'⟩
      · exact hI2 c (List.mem_cons_self c rest) (h'.symm.trans e)
      · exact hI2 y (List.mem_cons_of_mem c hy) (h'.symm.trans e)
    have hf : filteredComments (pre ++ c :: rest) parentId = [c] := by
      rw [filteredComments, List.filter_append, List.filter_cons]
      have h1 : pre.filter (fun comment : StoreComment =>
          comment._id.isSome && (comment.parentId == parentId)) = [] := by
        rw [List.filter_eq_nil_iff]
        intro x hx
        have := hA x hx
        simp [this]
      have h2 : rest.filter (fun comment : StoreComment =>
          comment._id.isSome && (comment.parentId == parentId)) = [] := by
        rw [List.filter_eq_nil_iff]
        intro x hx
        have := hB x hx
        simp [this]
      simp [h1, h2, hthread.1, hthread.2.1]
    have hrec := renderLevels_thread rest (pre ++ [c]) c._id levels
      (by simpa using hids) hthread.2.2
      (by
        intro x hx e
        rcases List.mem_append.1 hx with hx | hx
        · exact hI3 x hx c (List.mem_cons_self c rest) e
        · obtain rfl : x = c := by simpa using hx
          exact hI2 x (List.mem_cons_self x rest) (e.symm.trans hthread.2.1))
      hidc
      (by
        intro x hx y hy e
        rcases List.mem_append.1 hx with hx | hx
        · exact hI3 x hx y (List.mem_cons_of_mem c hy) e
        · obtain rfl : x = c := by simpa using hx
          exact hI2 y (List.mem_cons_of_mem x hy) (e.symm.trans hthread.2.1))
    rw [renderLevels_succ_of_nodup _ hids, sortedComments, hf]
    simp only [sortNewestFirst, List.insertionSort, List.orderedInsert, List.map_cons,
      List.map_nil, List.take_succ_cons, viewPath]
    rw [← hrec]
    simp

/-- C5, as stated, fails: of a reply chain of twelve comments the twelfth is not output by
`renderComments`, neither flattened to the level of the eleventh nor anywhere else. -/
theorem long_thread_counterexample :
    (longThread.map StoreComment._id).Nodup ∧ IsThreadFrom none longThread ∧
      sampleRecord (some 12) (some 11) 89 ∈ longThread ∧
      sampleRecord (some 12) (some 11) 89 ∉ flattenViews (renderCommentList longThread) := by
  refine ⟨by decide, ?_, by decide, by decide⟩
  simp [longThread, List.range, List.range.loop, IsThreadFrom, sampleRecord]

/-- C5, amended: for every reply chain with pairwise-distinct ids, `renderComments` outputs
exactly the comments of the first `maxDepth + 1` levels (11 for the default limit), each nested
in its parent; the comments deeper than the limit are omitted. -/
theorem renderComments_thread (thread : List StoreComment)
    (hids : (thread.map StoreComment._id).Nodup) (hthread : IsThreadFrom none thread)
    (maxDepth : Nat) :
    renderComments thread none 0 maxDepth = viewPath (thread.take (maxDepth + 1)) ∧
      flattenViews (renderComments thread none 0 maxDepth) = thread.take (maxDepth + 1) ∧
      ∀ c ∈ thread.drop (maxDepth + 1),
        c ∉ flattenViews (renderComments thread none 0 maxDepth) := by
  have h : renderComments thread none 0 maxDepth = viewPath (thread.take (maxDepth + 1)) := by
    rw [renderComments]
    exact renderLevels_thread thread [] none (maxDepth + 1 - 0) (by simpa using hids) hthread
      (by simp) (hthread.isSome_id) (by simp)
  refine ⟨h, by rw [h, flattenViews_viewPath], fun c hc hmem => ?_⟩
  rw [h, flattenViews_viewPath] at hmem
  have hnd : (thread.take (maxDepth + 1) ++ thread.drop (maxDepth + 1)).Nodup := by
    rw [List.take_append_drop]
    exact List.Nodup.of_map _ hids
  exact (List.nodup_append.1 hnd).2.2 hmem hc

theorem renderComments_thread_witness :
    (longThread.map StoreComment._id).Nodup ∧
      renderComments longThread none 0 10 = viewPath (longThread.take (10 + 1)) ∧
      flattenViews (renderComments longThread none 0 10) = longThread.take (10 + 1) ∧
      ∀ c ∈ longThread.drop (10 + 1),
        c ∉ flattenViews (renderComments longThread none 0 10) :=
  ⟨by decide,
    renderComments_thread longThread (by decide)
      (by simp [longThread, List.range, List.range.loop, IsThreadFrom, sampleRecord]) 10⟩

/-! ## Likes -/

/-- Against the `req.user.id` attached by `protect` the comparison of line 196 (and 244) is
false for every like: a string is never strictly equal to an `ObjectId` object. -/
theorem strictEqString_protect (s : ObjectId) (user : User) :
    strictEqString s (protect user).id = false := rfl

/-- For a requester authenticated by `protect`, `likeComment` never answers "already liked":
whenever the comment exists it appends a like and answers 200. -/
theorem likeComment_protect (db : List Comment) (comment : Comment)
    (hfind : findById db comment._id = some comment) (user : User) (now : Int) :
    ∃ saved : Comment,
      saved = { comment with
        likes := comment.likes ++ [({ userId := user._id, createdAt := now } : Like)],
        likesCount := comment.likes.length + 1 } ∧
      likeComment db (some comment._id) (protect user) now =
        ({ status := 200, text := "Comment liked successfully", comment := some saved },
          save db saved) := by
  have hany : comment.likes.any (fun like => strictEqString like.userId (protect user).id) =
      false := by
    rw [List.any_eq_false]
    intro like _
    simp [strictEqString_protect]
  refine ⟨_, rfl, ?_⟩
  simp only [likeComment, hfind, hany]
  simp [protect, IdValue.toObjectId]

/-- C9 on the code: user 7, authenticated by `protect`, likes a comment that already holds
user 7's like. The request is answered 200, not rejected as already liked, and the stored
comment ends with two likes of user 7 and `likesCount` 2. -/
theorem likeComment_twice_accepted :
    (protect sampleUser).id.toObjectId ∈ likedComment.likes.map Like.userId ∧
      (likeComment [likedComment] (some 1) (protect sampleUser) 20).1.status = 200 ∧
      (likeComment [likedComment] (some 1) (protect sampleUser) 20).1.text ≠
        "You have already liked this comment" ∧
      (likeComment [likedComment] (some 1) (protect sampleUser) 20).2 =
        [{ likedComment with
            likes := [{ userId := 7, createdAt := 10 }, { userId := 7, createdAt := 20 }],
            likesCount := 2 }] := by
  refine ⟨by decide, by decide, by decide, by decide⟩

theorem findIdx?_of_not_liked (likes : List Like) (id : IdValue)
    (h : id.toObjectId ∉ likes.map Like.userId) :
    likes.findIdx? (fun like => strictEqString like.userId id) = none := by
  rw [List.findIdx?_eq_none_iff]
  intro like hlike
  cases id with
  | oid i => rfl
  | str t =>
    have hne : like.userId ≠ t := fun e => h (e ▸ List.mem_map_of_mem _ hlike)
    simpa [strictEqString] using hne

/-- C10: for an existing comment and a requester whose id is not among the `userId`s of
`comment.likes`, `unlikeComment` answers 400 "You have not liked this comment yet" and the
stored comments (hence `likes` and `likesCount`) stay as they were; and whenever it does
remove a like (answer 200), the requester's id was among them. -/
theorem unlikeComment_not_liked (db : List Comment) (comment : Comment)
    (hfind : findById db comment._id = some comment) (user : ReqUser) :
    (user.id.toObjectId ∉ comment.likes.map Like.userId →
        unlikeComment db (some comment._id) user =
          ({ status := 400, text := "You have not liked this comment yet", comment := none },
            db)) ∧
      ((unlikeComment db (some comment._id) user).1.status = 200 →
        user.id.toObjectId ∈ comment.likes.map Like.userId) := by
  constructor
  · intro h
    simp only [unlikeComment, hfind, findIdx?_of_not_liked comment.likes user.id h]
  · intro h200
    by_contra h
    simp [unlikeComment, hfind, findIdx?_of_not_liked comment.likes user.id h] at h200

theorem unlikeComment_not_liked_witness :
    findById [likedComment] likedComment._id = some likedComment ∧
      (IdValue.str 8).toObjectId ∉ likedComment.likes.map Like.userId ∧
      unlikeComment [likedComment] (some likedComment._id)
          { protect sampleUser with id := IdValue.str 8 } =
        ({ status := 400, text := "You have not liked this comment yet", comment := none },
          [likedComment]) ∧
      (unlikeComment [likedComment] (some likedComment._id)
          { protect sampleUser with id := IdValue.str 7 }).1.status = 200 ∧
      (IdValue.str 7).toObjectId ∈ likedComment.likes.map Like.userId :=
  ⟨by decide, by decide,
    (unlikeComment_not_liked [likedComment] likedComment (by decide)
      { protect sampleUser with id := IdValue.str 8 }).1 (by decide),
    by decide,
    (unlikeComment_not_liked [likedComment] likedComment (by decide)
      { protect sampleUser with id := IdValue.str 7 }).2 (by decide)⟩

/-! ## Like followed by unlike -/

theorem findById_id {db : List Comment} {id : ObjectId} {c : Comment}
    (h : findById db id = some c) : c._id = id := by
  have := List.find?_some h
  simpa using this

theorem findById_save (db : List Comment) (id : ObjectId) (c saved : Comment)
    (h : findById db id = some c) (hid : saved._id = id) :
    findById (save db saved) id = some saved := by
  induction db with
  | nil => simp [findById] at h
  | cons a db ih =>
    by_cases ha : a._id = id
    · simp [findById, save, ha, hid]
    · have h' : findById db id = some c := by
        simpa [findById, List.find?_cons, ha] using h
      have hne : ¬ a._id = saved._id := by rw [hid]; exact ha
      have h2 := ih h'
      unfold findById save at h2 ⊢
      rw [List.map_cons, if_neg (by simpa using hne),
        List.find?_cons_of_neg _ (by simpa using ha)]
      exact h2

/-- C11 on the code: for a stored comment `c` and a user authenticated by `protect`, one
whose id is not among `c.likes` included, `likeComment` answers 200 and stores the like, and
the `unlikeComment` of the same user that follows is answered 400 "You have not liked this
comment yet" and changes nothing. No unlike of that user succeeds, and the stored comment
keeps the new like: its `likes` are those of `c` and one more, its `likesCount` is one above
their number. -/
theorem like_then_unlike_rejected (db : List Comment) (c : Comment)
    (hfind : findById db c._id = some c) (user : User) (now : Int) :
    (likeComment db (some c._id) (protect user) now).1.status = 200 ∧
      unlikeComment (likeComment db (some c._id) (protect user) now).2 (some c._id)
          (protect user) =
        ({ status := 400, text := "You have not liked this comment yet", comment := none },
          (likeComment db (some c._id) (protect user) now).2) ∧
      ∃ c', findById (unlikeComment (likeComment db (some c._id) (protect user) now).2
          (some c._id) (protect user)).2 c._id = some c' ∧
        c'.likes = c.likes ++ [({ userId := user._id, createdAt := now } : Like)] ∧
        c'.likesCount = c.likes.length + 1 ∧ c'.likes ≠ c.likes := by
  obtain ⟨saved, hsaved, hl⟩ := likeComment_protect db c hfind user now
  have hsid : saved._id = c._id := by rw [hsaved]
  have hf1 := findById_save db c._id c saved hfind hsid
  have hidx : saved.likes.findIdx? (fun like => strictEqString like.userId (protect user).id) =
      none := by
    rw [List.findIdx?_eq_none_iff]
    intro like _
    rfl
  have hun : unlikeComment (save db saved) (some c._id) (protect user) =
      ({ status := 400, text := "You have not liked this comment yet", comment := none },
        save db saved) := by
    simp only [unlikeComment, hf1, hidx]
  rw [hl]
  refine ⟨rfl, hun, saved, ?_, ?_, ?_, ?_⟩
  · rw [hun]
    exact hf1
  · rw [hsaved]
  · rw [hsaved]
  · rw [hsaved]
    intro e
    have := congrArg List.length e
    simp at this

theorem like_then_unlike_rejected_witness :
    findById [likedComment] likedComment._id = some likedComment ∧
      (protect authorUser).id.toObjectId ∉ likedComment.likes.map Like.userId ∧
      (likeComment [likedComment] (some likedComment._id) (protect authorUser) 20).1.status =
        200 ∧
      unlikeComment (likeComment [likedComment] (some likedComment._id)
          (protect authorUser) 20).2 (some likedComment._id) (protect authorUser) =
        ({ status := 400, text := "You have not liked this comment yet", comment := none },
          (likeComment [likedComment] (some likedComment._id) (protect authorUser) 20).2) ∧
      ∃ c', findById (unlikeComment (likeComment [likedComment] (some likedComment._id)
          (protect authorUser) 20).2 (some likedComment._id) (protect authorUser)).2
          likedComment._id = some c' ∧
        c'.likes =
          likedComment.likes ++ [({ userId := authorUser._id, createdAt := 20 } : Like)] ∧
        c'.likesCount = likedComment.likes.length + 1 ∧ c'.likes ≠ likedComment.likes :=
  ⟨by decide, by decide,
    like_then_unlike_rejected [likedComment] likedComment (by decide) authorUser 20⟩

/-! ## Deleting a comment -/

/-- For a requester authenticated by `protect` the author test of line 290 never passes, so
`deleteComment` removes an existing comment exactly for the role `admin`. -/
theorem deleteComment_protect (db : List Comment) (comment : Comment)
    (hfind : findById db comment._id = some comment) (user : User) :
    (user.role = "admin" →
        deleteComment db (some comment._id) (protect user) =
          ({ status := 200, text := "Comment deleted successfully", comment := none },
            db.eraseP (fun c => c._id == comment._id))) ∧
      (user.role ≠ "admin" →
        deleteComment db (some comment._id) (protect user) =
          ({ status := 403, text := "You are not authorized to delete this comment",
             comment := none }, db)) := by
  constructor
  · intro h
    simp [deleteComment, hfind, protect, h]
  · intro h
    simp [deleteComment, hfind, protect, strictEqString, h]

/-- C12 on the code: the author of a comment (user 9, role `user`), authenticated by
`protect`, asks to delete it. The request is answered 403 and the comment stays stored. -/
theorem deleteComment_author_rejected :
    likedComment.userId = authorUser._id ∧
      findById [likedComment] 1 = some likedComment ∧
      (deleteComment [likedComment] (some 1) (protect authorUser)).1.status = 403 ∧
      (deleteComment [likedComment] (some 1) (protect authorUser)).2 = [likedComment] := by
  refine ⟨by decide, by decide, by decide, by decide⟩

/-! ## The `isLiked` flag -/

/-- For a viewer authenticated by `protect` the comparison of line 116 is false for every
like, so the flag is never set. -/
theorem isLiked_protect (users : List ObjectId) (comment : Comment) (user : User) :
    isLiked users comment (some (protect user).id) = false := by
  simp [isLiked, strictEqString_protect]

/-- Without an attached user the flag is `false`. -/
theorem isLiked_unauthenticated (users : List ObjectId) (comment : Comment) :
    isLiked users comment none = false := rfl

/-- C20 on the code: user 7 exists, is authenticated by `protect` and has liked the comment,
yet the projection attaches `isLiked = false`. -/
theorem isLiked_viewer_missed :
    sampleUser._id ∈ [7, 9] ∧
      (protect sampleUser).id.toObjectId ∈ likedComment.likes.map Like.userId ∧
      isLiked [7, 9] likedComment (some (protect sampleUser).id) = false := by
  refine ⟨by decide, by decide, by decide⟩

/-! ## Adding a comment -/

theorem dropWhile_replicate_of_false {α : Type} (p : α → Bool) (a : α) (h : p a = false) :
    ∀ n, (List.replicate n a).dropWhile p = List.replicate n a
  | 0 => rfl
  | n + 1 => by rw [List.replicate_succ, List.dropWhile_cons, h]; rfl

theorem jsTrim_longText : jsTrim longText = longText := by
  have h : isJsWhitespace 'a' = false := by decide
  show String.mk ((((List.replicate 1001 'a').dropWhile isJsWhitespace).reverse.dropWhile
    isJsWhitespace).reverse) = String.mk (List.replicate 1001 'a')
  rw [dropWhile_replicate_of_false _ _ h, List.reverse_replicate,
    dropWhile_replicate_of_false _ _ h, List.reverse_replicate]

theorem jsLength_longText : jsLength longText = 1001 := by
  have h : ¬ (0x10000 ≤ 'a'.toNat) := by decide
  show ((List.replicate 1001 'a').map (fun c => if 0x10000 ≤ c.toNat then 2 else 1)).sum = 1001
  rw [List.map_replicate, List.sum_replicate, if_neg h, smul_eq_mul, mul_one]

/-- C13, as stated, fails: content of 1001 letters sent to an existing post is not answered
400 but 500 ("Failed to add comment"); no comment is stored. -/
theorem addComment_long_counterexample :
    jsLength (jsTrim longText) = 1001 ∧
      addComment [{ _id := 100, commentsCount := 0 }] [] (some 100) (ContentValue.str longText)
          ParentValue.absent (protect sampleUser) 5 1 =
        ({ status := 500, text := "Failed to add comment", comment := none }, []) := by
  have hlen : jsLength (jsTrim longText) = 1001 := by rw [jsTrim_longText, jsLength_longText]
  have hne : longText ≠ "" := by
    intro h
    have := congrArg jsLength h
    rw [jsLength_longText] at this
    simp [jsLength] at this
  refine ⟨hlen, ?_⟩
  simp [addComment, hlen, hne]

/-- C13, amended: for a request to `addComment` on an existing post, with a `parentId` that
is absent or a valid id, the comment is stored exactly when the trimmed content has between 1
and 1000 characters, and its content is then the trimmed input. Missing, non-string and
whitespace-only content is answered 400; over-length content is answered 500 by the failing
save; in both cases the stored comments are unchanged. -/
theorem addComment_stored (blogs : List BlogDoc) (db : List Comment) (postId : ObjectId)
    (hblog : blogs.any (fun blog => blog._id == postId) = true)
    (content : ContentValue) (parentId : ParentValue) (hparent : parentId ≠ ParentValue.invalid)
    (user : ReqUser) (newId : ObjectId) (now : Int) :
    ((content = ContentValue.missing ∨ content = ContentValue.nonString ∨
        ∃ s, content = ContentValue.str s ∧ jsLength (jsTrim s) = 0) →
      addComment blogs db (some postId) content parentId user newId now =
        ({ status := 400, text := "Comment content is required", comment := none }, db)) ∧
    (∀ s, content = ContentValue.str s → 1000 < jsLength (jsTrim s) →
      addComment blogs db (some postId) content parentId user newId now =
        ({ status := 500, text := "Failed to add comment", comment := none }, db)) ∧
    (∀ s, content = ContentValue.str s → 1 ≤ jsLength (jsTrim s) →
      jsLength (jsTrim s) ≤ 1000 →
      ∃ c, addComment blogs db (some postId) content parentId user newId now =
          ({ status := 201, text := "Comment added successfully", comment := some c },
            db ++ [c]) ∧
        c.content = jsTrim s ∧ c._id = newId ∧ c.postId = postId) := by
  have hempty : ∀ s : String, s = "" → jsLength (jsTrim s) = 0 := by
    intro s hs
    subst hs
    rfl
  refine ⟨?_, ?_, ?_⟩
  · rintro (rfl | rfl | ⟨s, rfl, hs⟩)
    · rfl
    · rfl
    · simp [addComment, hs]
  · intro s hs hlong
    subst hs
    have h0 : jsLength (jsTrim s) ≠ 0 := by omega
    have hne : s ≠ "" := fun h => h0 (hempty s h)
    cases parentId with
    | invalid => exact absurd rfl hparent
    | absent => simp [addComment, h0, hne, hblog, hlong]
    | valid id => simp [addComment, h0, hne, hblog, hlong]
  · intro s hs h1 h2
    subst hs
    have h0 : jsLength (jsTrim s) ≠ 0 := by omega
    have hne : s ≠ "" := fun h => h0 (hempty s h)
    have hle : ¬ 1000 < jsLength (jsTrim s) := by omega
    cases parentId with
    | invalid => exact absurd rfl hparent
    | absent =>
      exact ⟨{ _id := newId, postId := postId, userId := user.id.toObjectId,
               parentId := none, content := jsTrim s, likes := [], likesCount := 0,
               createdAt := now },
        by simp [addComment, h0, hne, hblog, hle], rfl, rfl, rfl⟩
    | valid id =>
      exact ⟨{ _id := newId, postId := postId, userId := user.id.toObjectId,
               parentId := some id, content := jsTrim s, likes := [], likesCount := 0,
               createdAt := now },
        by simp [addComment, h0, hne, hblog, hle], rfl, rfl, rfl⟩

theorem addComment_stored_witness :
    [({ _id := 100, commentsCount := 0 } : BlogDoc)].any (fun blog => blog._id == 100) = true ∧
      ParentValue.absent ≠ ParentValue.invalid ∧
      1 ≤ jsLength (jsTrim "  hi there ") ∧ jsLength (jsTrim "  hi there ") ≤ 1000 ∧
      ∃ c, addComment [{ _id := 100, commentsCount := 0 }] [] (some 100)
            (ContentValue.str "  hi there ") ParentValue.absent (protect sampleUser) 5 1 =
          ({ status := 201, text := "Comment added successfully", comment := some c },
            [] ++ [c]) ∧
        c.content = jsTrim "  hi there " ∧ c._id = 5 ∧ c.postId = 100 :=
  ⟨by decide, by decide, by decide, by decide,
    (addComment_stored [{ _id := 100, commentsCount := 0 }] [] 100 (by decide)
      (ContentValue.str "  hi there ") ParentValue.absent (by decide) (protect sampleUser)
      5 1).2.2 "  hi there " rfl (by decide) (by decide)⟩

/-! ## The comment slice -/

theorem collect_map_some_id {α : Type} (l : List α) : collect (l.map some) = some l :=
  (collect_eq_some_iff _ _).2 rfl

theorem filterOutId_records (l : List StoreComment) (commentId : Option Nat) :
    filterOutId (Slot.array (l.map some)) commentId =
      some (Slot.array ((l.filter (fun comment => comment._id != commentId)).map some)) := by
  simp [filterOutId, collect_map_some_id]

/-- C14, as stated, fails: when the list already holds a record with the id of the new
comment, `addComment.fulfilled` appends the new comment after it instead of replacing it, and
the list then holds the id twice. -/
theorem addComment_fulfilled_counterexample :
    ((storeWith [textRecord 1 "old"]).commentsByBlog (some 1) =
        Slot.array ([textRecord 1 "old"].map some)) ∧
      ([textRecord 1 "old"].map StoreComment._id).Nodup ∧
      (commentReducer (storeWith [textRecord 1 "old"])
          (CommentAction.addCommentFulfilled (some 1) (some (textRecord 1 "new")))).map
          (fun s => s.commentsByBlog (some 1)) =
        some (Slot.array [some (textRecord 1 "old"), some (textRecord 1 "new")]) ∧
      ¬ ([textRecord 1 "old", textRecord 1 "new"].map StoreComment._id).Nodup := by
  refine ⟨by decide, by decide, by decide, by decide⟩

/-- C14, amended: `addComment.fulfilled` appends the comment at the end of the list for
`blogId` whether or not its `_id` is already there, and leaves the other lists alone; so a list
with pairwise-distinct `_id` values keeps them distinct exactly when the `_id` of the comment
was unseen. -/
theorem addComment_fulfilled_appends (s : CommentsState) (blogId : Option Nat)
    (c : StoreComment) (l : List StoreComment)
    (hlist : s.commentsByBlog blogId = Slot.array (l.map some)) :
    ∃ s', commentReducer s (CommentAction.addCommentFulfilled blogId (some c)) = some s' ∧
      s'.commentsByBlog blogId = Slot.array ((l ++ [c]).map some) ∧
      (∀ other, other ≠ blogId → s'.commentsByBlog other = s.commentsByBlog other) ∧
      ((l.map StoreComment._id).Nodup →
        (((l ++ [c]).map StoreComment._id).Nodup ↔ c._id ∉ l.map StoreComment._id)) := by
  refine ⟨_, rfl, ?_, ?_, ?_⟩
  · simp [hlist]
  · intro other hne
    simp [Function.update, hne]
  · intro hnd
    rw [List.map_append, List.nodup_append]
    simp [hnd, List.disjoint_right]

theorem addComment_fulfilled_appends_witness :
    (storeWith [textRecord 1 "old"]).commentsByBlog (some 1) =
        Slot.array ([textRecord 1 "old"].map some) ∧
      ∃ s', commentReducer (storeWith [textRecord 1 "old"])
          (CommentAction.addCommentFulfilled (some 1) (some (textRecord 2 "new"))) = some s' ∧
        s'.commentsByBlog (some 1) =
          Slot.array (([textRecord 1 "old"] ++ [textRecord 2 "new"]).map some) ∧
        (∀ other, other ≠ some 1 →
          s'.commentsByBlog other = (storeWith [textRecord 1 "old"]).commentsByBlog other) ∧
        (([textRecord 1 "old"].map StoreComment._id).Nodup →
          ((([textRecord 1 "old"] ++ [textRecord 2 "new"]).map StoreComment._id).Nodup ↔
            (textRecord 2 "new")._id ∉ [textRecord 1 "old"].map StoreComment._id)) :=
  ⟨by decide,
    addComment_fulfilled_appends (storeWith [textRecord 1 "old"]) (some 1)
      (textRecord 2 "new") [textRecord 1 "old"] (by decide)⟩

/-- When the value under `blogId` is a list of records (or absent, read as the empty
list) and `userComments` is a list of records, `deleteComment.fulfilled` sets the list for
`blogId` to the previous list without the entries whose `_id` is `commentId`, the others
unchanged and in their order; every other record, the replies to the deleted comment among
them, is still in the list, and the lists of other posts are unchanged. -/
theorem deleteComment_fulfilled_of_records (s : CommentsState) (blogId commentId : Option Nat)
    (l u : List StoreComment)
    (hlist : orEmptyArray (s.commentsByBlog blogId) = Slot.array (l.map some))
    (huser : s.userComments = Slot.array (u.map some)) :
    ∃ s', commentReducer s (CommentAction.deleteCommentFulfilled blogId commentId) = some s' ∧
      s'.commentsByBlog blogId =
        Slot.array ((l.filter (fun comment => comment._id != commentId)).map some) ∧
      (∀ r ∈ l, r._id ≠ commentId →
        r ∈ l.filter (fun comment => comment._id != commentId)) ∧
      (∀ r ∈ l, r.parentId = commentId → r._id ≠ commentId →
        r ∈ l.filter (fun comment => comment._id != commentId)) ∧
      (∀ other, other ≠ blogId → s'.commentsByBlog other = s.commentsByBlog other) := by
  have hkeep : ∀ r ∈ l, r._id ≠ commentId →
      r ∈ l.filter (fun comment => comment._id != commentId) := by
    intro r hr hne
    exact List.mem_filter.2 ⟨hr, by simpa using hne⟩
  refine ⟨{ s with
      status := "succeeded",
      commentsByBlog := Function.update s.commentsByBlog blogId
        (Slot.array ((l.filter (fun comment => comment._id != commentId)).map some)),
      userComments :=
        Slot.array ((u.filter (fun comment => comment._id != commentId)).map some) },
    ?_, ?_, hkeep, fun r hr _ hne => hkeep r hr hne, ?_⟩
  · simp only [commentReducer, hlist, huser, filterOutId_records, Option.some_bind,
      Option.map_some']
  · simp
  · intro other hne
    simp [Function.update, hne]

/-- C15 on the code: once `fetchComments.fulfilled` has stored what the thunk hands it under
the blog id (the response body, an object), `deleteComment.fulfilled` for that blog throws
whatever the comment id, since `blogComments.filter` is not a function, and the state is not
updated. It throws as well on a list in which a like has left `undefined`. In the same state
the sibling `addComment.fulfilled`, which tests `Array.isArray`, goes through. -/
theorem deleteComment_fulfilled_throws (s : CommentsState) (blogId : Nat)
    (body : CommentsBody) (now : Int) (commentId : Option Nat) :
    applyTwo s (fetchCommentsCompleted (some blogId) body now)
        (CommentAction.deleteCommentFulfilled (some blogId) commentId) = none ∧
      (∃ s', applyTwo s (fetchCommentsCompleted (some blogId) body now)
          (CommentAction.addCommentFulfilled (some blogId) (some (textRecord 3 "new"))) =
            some s' ∧
        s'.commentsByBlog (some blogId) = Slot.array [some (textRecord 3 "new")]) ∧
      (commentReducer (storeWith [textRecord 1 "a", textRecord 2 "b"])
          (likeCommentCompleted (some 1) (some 1))).map (fun s => s.commentsByBlog (some 1)) =
        some (Slot.array [none, some (textRecord 2 "b")]) ∧
      applyTwo (storeWith [textRecord 1 "a", textRecord 2 "b"])
        (likeCommentCompleted (some 1) (some 1))
        (CommentAction.deleteCommentFulfilled (some 1) (some 2)) = none := by
  refine ⟨?_, ⟨_, rfl, ?_⟩, by decide, rfl⟩
  · simp [applyTwo, fetchCommentsCompleted, commentReducer, orEmptyArray, filterOutId]
  · simp

/-! ## Submitting, rejecting and editing -/

/-- C16, as stated, fails: after `addComment.pending` the list for the blog is the list it
was, with no additional comment; only `status` has changed. -/
theorem addComment_pending_counterexample :
    (storeWith [textRecord 1 "a"]).commentsByBlog (some 1) =
        Slot.array [some (textRecord 1 "a")] ∧
      (commentReducer (storeWith [textRecord 1 "a"]) CommentAction.addCommentPending).map
          (fun s => s.commentsByBlog (some 1)) =
        some (Slot.array [some (textRecord 1 "a")]) ∧
      (commentReducer (storeWith [textRecord 1 "a"]) CommentAction.addCommentPending).map
          (fun s => s.status) = some "loading" := by
  refine ⟨by decide, by decide, by decide⟩

/-- C16, amended: on submit, `addComment.pending` leaves every comment list (`commentsByBlog`
and `userComments`) as it was and only sets `status` to `loading` and `error` to `null`; no
comment with a temporary id is added. -/
theorem addComment_pending (s : CommentsState) :
    ∃ s', commentReducer s CommentAction.addCommentPending = some s' ∧
      s'.commentsByBlog = s.commentsByBlog ∧ s'.userComments = s.userComments ∧
      s'.status = "loading" ∧ s'.error = none :=
  ⟨_, rfl, rfl, rfl, rfl, rfl⟩

theorem rejectionMessage_ne_empty (payloadMessage errorMessage : Option String)
    (fallback : String) (h : fallback ≠ "") :
    rejectionMessage payloadMessage errorMessage fallback ≠ "" := by
  have key : ∀ m : Option String, ∀ text, truthyMessage m = some text → text ≠ "" := by
    intro m text hm
    cases m with
    | none => simp [truthyMessage] at hm
    | some t =>
      simp only [truthyMessage, Option.filter] at hm
      split at hm
      · rename_i ht
        cases hm
        simpa using ht
      · cases hm
  unfold rejectionMessage
  cases hp : truthyMessage payloadMessage with
  | some text => simpa using key _ _ hp
  | none =>
    cases he : truthyMessage errorMessage with
    | some text => simpa using key _ _ he
    | none => simpa using h

/-- C17: for every state `s` and every rejected submission, `addComment.pending` followed by
`addComment.rejected` ends in a state whose `commentsByBlog` and `userComments` are those of
`s`, whose `status` is `failed` and whose `error` is a non-empty message. -/
theorem addComment_rejected_restores (s : CommentsState)
    (payloadMessage errorMessage : Option String) :
    ∃ s', applyTwo s CommentAction.addCommentPending
          (CommentAction.addCommentRejected payloadMessage errorMessage) = some s' ∧
      s'.commentsByBlog = s.commentsByBlog ∧ s'.userComments = s.userComments ∧
      s'.status = "failed" ∧ ∃ message, s'.error = some message ∧ message ≠ "" :=
  ⟨_, rfl, rfl, rfl, rfl, _, rfl,
    rejectionMessage_ne_empty payloadMessage errorMessage "Failed to add comment" (by decide)⟩

/-- C18, as stated, fails: two edit responses for the stored comment 1, with `updatedAt` 10
and 20, leave its text "old" in either order; it never becomes the text of the later
response. -/
theorem updateComment_counterexample :
    (10 : Int) < 20 ∧
      (applyTwo (storeWith [textRecord 1 "old"])
          (CommentAction.updateCommentFulfilled (some (textRecord 1 "first")) 10)
          (CommentAction.updateCommentFulfilled (some (textRecord 1 "second")) 20)).map
          (fun s => s.commentsByBlog (some 1)) =
        some (Slot.array [some (textRecord 1 "old")]) ∧
      (applyTwo (storeWith [textRecord 1 "old"])
          (CommentAction.updateCommentFulfilled (some (textRecord 1 "second")) 20)
          (CommentAction.updateCommentFulfilled (some (textRecord 1 "first")) 10)).map
          (fun s => s.commentsByBlog (some 1)) =
        some (Slot.array [some (textRecord 1 "old")]) ∧
      (textRecord 1 "old").content ≠ (textRecord 1 "second").content := by
  refine ⟨by decide, by decide, by decide, by decide⟩

/-- C18, amended: the slice has no case for `updateComment.fulfilled`, so applying two edit
responses in either order leaves the whole store, and with it the body of the stored comment,
as it was before both. -/
theorem updateComment_fulfilled_ignored (s : CommentsState)
    (first second : Option StoreComment) (t₁ t₂ : Int) :
    applyTwo s (CommentAction.updateCommentFulfilled first t₁)
        (CommentAction.updateCommentFulfilled second t₂) = some s ∧
      applyTwo s (CommentAction.updateCommentFulfilled second t₂)
        (CommentAction.updateCommentFulfilled first t₁) = some s :=
  ⟨rfl, rfl⟩

/-- C19 on the code: the store holds comments 1 and 2 of blog 1; a like of comment 1 and a
deletion of comment 2 complete. Like first: the like puts `undefined` in the place of comment
1 and the deletion then throws. Deletion first: both reducers succeed and the list ends as
`[undefined]`. -/
theorem completions_order_matters :
    (storeWith [textRecord 1 "a", textRecord 2 "b"]).commentsByBlog (some 1) =
        Slot.array [some (textRecord 1 "a"), some (textRecord 2 "b")] ∧
      (commentReducer (storeWith [textRecord 1 "a", textRecord 2 "b"])
          (likeCommentCompleted (some 1) (some 1))).map (fun s => s.commentsByBlog (some 1)) =
        some (Slot.array [none, some (textRecord 2 "b")]) ∧
      (applyTwo (storeWith [textRecord 1 "a", textRecord 2 "b"])
          (likeCommentCompleted (some 1) (some 1))
          (CommentAction.deleteCommentFulfilled (some 1) (some 2))).isSome = false ∧
      (applyTwo (storeWith [textRecord 1 "a", textRecord 2 "b"])
          (CommentAction.deleteCommentFulfilled (some 1) (some 2))
          (likeCommentCompleted (some 1) (some 1))).map (fun s => s.commentsByBlog (some 1)) =
        some (Slot.array [none]) := by
  refine ⟨by decide, by decide, by decide, by decide⟩

/-! ## The like counter -/

/-- C21: the `likesCount` of the projection is the number of entries of `comment.likes`, and
after a successful `likeComment` or `unlikeComment` the comment stored under the requested id
has `likesCount` equal to the length of its `likes`. -/
theorem likesCount_eq_length :
    (∀ comment : Comment, projectedLikesCount comment = comment.likes.length) ∧
      (∀ (db : List Comment) (id : ObjectId) (user : ReqUser) (now : Int),
        (likeComment db (some id) user now).1.status = 200 →
        ∃ saved, findById (likeComment db (some id) user now).2 id = some saved ∧
          saved.likesCount = saved.likes.length) ∧
      (∀ (db : List Comment) (id : ObjectId) (user : ReqUser),
        (unlikeComment db (some id) user).1.status = 200 →
        ∃ saved, findById (unlikeComment db (some id) user).2 id = some saved ∧
          saved.likesCount = saved.likes.length) := by
  refine ⟨?_, ?_, ?_⟩
  · intro comment
    unfold projectedLikesCount
    split <;> omega
  · intro db id user now h
    cases hf : findById db id with
    | none => simp [likeComment, hf] at h
    | some c =>
      have hid := findById_id hf
      cases hany : c.likes.any (fun like => strictEqString like.userId user.id) with
      | true => simp [likeComment, hf, hany] at h
      | false =>
        simp only [likeComment, hf, hany]
        exact ⟨_, findById_save db id c _ hf hid, rfl⟩
  · intro db id user h
    cases hf : findById db id with
    | none => simp [unlikeComment, hf] at h
    | some c =>
      have hid := findById_id hf
      cases hidx : c.likes.findIdx? (fun like => strictEqString like.userId user.id) with
      | none => simp [unlikeComment, hf, hidx] at h
      | some i =>
        simp only [unlikeComment, hf, hidx]
        exact ⟨_, findById_save db id c _ hf hid, rfl⟩

theorem likesCount_eq_length_witness :
    (likeComment [likedComment] (some 1) (protect sampleUser) 20).1.status = 200 ∧
      (∃ saved, findById (likeComment [likedComment] (some 1) (protect sampleUser) 20).2 1 =
          some saved ∧ saved.likesCount = saved.likes.length) ∧
      (unlikeComment [likedComment] (some 1)
          { protect sampleUser with id := IdValue.str 7 }).1.status = 200 ∧
      (∃ saved, findById (unlikeComment [likedComment] (some 1)
          { protect sampleUser with id := IdValue.str 7 }).2 1 = some saved ∧
        saved.likesCount = saved.likes.length) :=
  ⟨by decide,
    likesCount_eq_length.2.1 [likedComment] 1 (protect sampleUser) 20 (by decide),
    by decide,
    likesCount_eq_length.2.2 [likedComment] 1 { protect sampleUser with id := IdValue.str 7 }
      (by decide)⟩

/-! ## The display author -/

theorem truthyMessage_eq_some {m : Option String} {text : String} (h : m = some text)
    (hne : text ≠ "") : truthyMessage m = some text := by
  subst h
  simp [truthyMessage, Option.filter, hne]

theorem truthyMessage_eq_none {m : Option String}
    (h : m = none ∨ m = some "") : truthyMessage m = none := by
  rcases h with rfl | rfl <;> rfl

/-- C22, as stated, fails: for a user without name and username the projection gives the
name "Unknown Author", not "Unknown". -/
theorem authorInfo_counterexample :
    (authorInfo namelessUser).name = "Unknown Author" ∧
      (authorInfo namelessUser).name ≠ "Unknown" := by
  refine ⟨by decide, by decide⟩

/-- C22, amended: on the populated user object, `author.name` is the user's `name` when that
is non-empty, otherwise the `username` when that is non-empty, otherwise the literal
"Unknown Author"; `author.avatar` is the user's `avatar` when non-empty, otherwise
"default-avatar.png". -/
theorem authorInfo_fallback (user : PopulatedUser) :
    (∀ text, user.name = some text → text ≠ "" → (authorInfo user).name = text) ∧
      (∀ text, (user.name = none ∨ user.name = some "") → user.username = some text →
        text ≠ "" → (authorInfo user).name = text) ∧
      ((user.name = none ∨ user.name = some "") →
        (user.username = none ∨ user.username = some "") →
        (authorInfo user).name = "Unknown Author") ∧
      (∀ text, user.avatar = some text → text ≠ "" → (authorInfo user).avatar = text) ∧
      ((user.avatar = none ∨ user.avatar = some "") →
        (authorInfo user).avatar = "default-avatar.png") := by
  refine ⟨?_, ?_, ?_, ?_, ?_⟩
  · intro text h hne
    simp [authorInfo, firstNonEmpty, truthyMessage_eq_some h hne]
  · intro text hn hu hne
    simp [authorInfo, firstNonEmpty, truthyMessage_eq_none hn, truthyMessage_eq_some hu hne]
  · intro hn hu
    simp [authorInfo, firstNonEmpty, truthyMessage_eq_none hn, truthyMessage_eq_none hu]
  · intro text h hne
    simp [authorInfo, firstNonEmpty, truthyMessage_eq_some h hne]
  · intro h
    simp only [authorInfo, firstNonEmpty, truthyMessage_eq_none h]
    rfl

theorem authorInfo_fallback_witness :
    (authorInfo { _id := 7, name := some "", username := some "ann", avatar := none }).name =
        "ann" ∧
      (authorInfo { _id := 7, name := some "Ann", username := some "ann",
                    avatar := some "a.png" }).name = "Ann" ∧
      (authorInfo namelessUser).name = "Unknown Author" ∧
      (authorInfo { _id := 7, name := some "Ann", username := some "ann",
                    avatar := some "a.png" }).avatar = "a.png" ∧
      (authorInfo namelessUser).avatar = "default-avatar.png" :=
  ⟨(authorInfo_fallback
      { _id := 7, name := some "", username := some "ann", avatar := none }).2.1
      "ann" (Or.inr rfl) rfl (by decide),
    (authorInfo_fallback
      { _id := 7, name := some "Ann", username := some "ann", avatar := some "a.png" }).1
      "Ann" rfl (by decide),
    (authorInfo_fallback namelessUser).2.2.1 (Or.inl rfl) (Or.inl rfl),
    (authorInfo_fallback
      { _id := 7, name := some "Ann", username := some "ann", avatar := some "a.png" }).2.2.2.1
      "a.png" rfl (by decide),
    (authorInfo_fallback namelessUser).2.2.2.2 (Or.inl rfl)⟩

/-! ## Routes -/

/-- C28 on the code: behind the routes `DELETE /:commentId`, `POST /:commentId/like` and
`DELETE /:commentId/like` the handlers read `req.params.id`, which these patterns never set;
every request, whatever valid id its path holds, is answered 400 "Invalid comment ID" and
the stored comments stay as they are. -/
theorem routed_requests_rejected (db : List Comment) (segment : ObjectId) (user : ReqUser)
    (now : Int) :
    routedLikeComment db segment user now =
        ({ status := 400, text := "Invalid comment ID", comment := none }, db) ∧
      routedUnlikeComment db segment user =
        ({ status := 400, text := "Invalid comment ID", comment := none }, db) ∧
      routedDeleteComment db segment user =
        ({ status := 400, text := "Invalid comment ID", comment := none }, db) := by
  have h : ∀ route, route.paramName = some "commentId" →
      (reqParams route segment).lookup "id" = none := by
    intro route hr
    simp [reqParams, hr, List.lookup]
  refine ⟨?_, ?_, ?_⟩
  · simp [routedLikeComment, h CommentRoute.likeComment rfl, likeComment]
  · simp [routedUnlikeComment, h CommentRoute.unlikeComment rfl, unlikeComment]
  · simp [routedDeleteComment, h CommentRoute.deleteComment rfl, deleteComment]

/-! ## The comment counter of a blog -/

/-- C29 on the code: blog 100 has one stored comment and `commentsCount` 1. A successful like
of that comment raises `commentsCount` to 2 while the post still has one comment; a successful
deletion by an administrator leaves `commentsCount` at 1 while the post has no comment
left. -/
theorem commentsCount_drifts :
    commentsOfPost [likedComment] 100 = 1 ∧
      (likeCommentHooked [{ _id := 100, commentsCount := 1 }] [likedComment] (some 1)
          { protect sampleUser with id := IdValue.str 8 } 20).1.status = 200 ∧
      (likeCommentHooked [{ _id := 100, commentsCount := 1 }] [likedComment] (some 1)
          { protect sampleUser with id := IdValue.str 8 } 20).2.1 =
        [{ _id := 100, commentsCount := 2 }] ∧
      commentsOfPost (likeCommentHooked [{ _id := 100, commentsCount := 1 }] [likedComment]
          (some 1) { protect sampleUser with id := IdValue.str 8 } 20).2.2 100 = 1 ∧
      (deleteCommentHooked [{ _id := 100, commentsCount := 1 }] [likedComment] (some 1)
          (protect adminUser)).1.status = 200 ∧
      (deleteCommentHooked [{ _id := 100, commentsCount := 1 }] [likedComment] (some 1)
          (protect adminUser)).2.1 = [{ _id := 100, commentsCount := 1 }] ∧
      commentsOfPost (deleteCommentHooked [{ _id := 100, commentsCount := 1 }] [likedComment]
          (some 1) (protect adminUser)).2.2 100 = 0 := by
  refine ⟨by decide, by decide, by decide, by decide, by decide, by decide, by decide⟩

/-! ## The selector -/

theorem filterMap_id_map_some {α : Type} (l : List α) : (l.map some).filterMap id = l := by
  induction l with
  | nil => rfl
  | cons a l ih => simp [ih]

theorem filter_isNone_map_some {α : Type} (l : List α) :
    (l.map some).filter (fun item => item.isNone) = [] := by
  induction l with
  | nil => rfl
  | cons a l ih => simp [ih]

theorem filterMap_id_filter_isNone {α : Type} (items : List (Option α)) :
    (items.filter (fun item => item.isNone)).filterMap id = [] := by
  induction items with
  | nil => rfl
  | cons a items ih =>
    cases a with
    | none => simp [List.filter_cons, ih]
    | some x => simp [List.filter_cons, ih]

theorem perm_split_defined {α : Type} (items : List (Option α)) :
    ((items.filterMap id).map some ++ items.filter (fun item => item.isNone)).Perm items := by
  induction items with
  | nil => exact List.Perm.refl _
  | cons a items ih =>
    cases a with
    | none =>
      simp only [List.filterMap_cons, id, List.filter_cons, Option.isNone_none, if_true]
      exact List.perm_middle.trans (List.Perm.cons _ ih)
    | some x =>
      simp only [List.filterMap_cons, id, List.filter_cons, Option.isNone_some,
        List.map_cons, List.cons_append]
      exact List.Perm.cons _ ih

theorem perm_sortItemsNewestFirst (items : List (Option StoreComment)) :
    (sortItemsNewestFirst items).Perm items := by
  unfold sortItemsNewestFirst sortNewestFirst
  exact (List.Perm.append_right _
    ((List.perm_insertionSort _ (items.filterMap id)).map some)).trans
    (perm_split_defined items)

theorem filterMap_sortItemsNewestFirst (items : List (Option StoreComment)) :
    (sortItemsNewestFirst items).filterMap id = sortNewestFirst (items.filterMap id) := by
  unfold sortItemsNewestFirst
  rw [List.filterMap_append, filterMap_id_map_some, filterMap_id_filter_isNone,
    List.append_nil]

/-- C23: for every state and `blogId`, the slice after `selectCommentsByBlogId` is the slice
before it. When `commentsByBlog[blogId]` is a list, the result is a permutation of it whose
comments are sorted newest first (for a list of records: exactly the stable sort of the
list); when `blogId` is falsy, or the slice or the key is missing, or the value is not an
array, the result is the empty list. -/
theorem selectCommentsByBlogId_sorted (comments : Option CommentsState) (blogId : Option Nat) :
    (selectCommentsByBlogId comments blogId).2 = comments ∧
      (∀ slice key items, comments = some slice → blogId = some key →
        slice.commentsByBlog (some key) = Slot.array items →
        (selectCommentsByBlogId comments blogId).1.Perm items ∧
        ((selectCommentsByBlogId comments blogId).1.filterMap id).Sorted
          (fun a b => b.createdAt ≤ a.createdAt) ∧
        ∀ records, items = records.map some →
          (selectCommentsByBlogId comments blogId).1 = (sortNewestFirst records).map some) ∧
      (blogId = none → (selectCommentsByBlogId comments blogId).1 = []) ∧
      (comments = none → (selectCommentsByBlogId comments blogId).1 = []) ∧
      (∀ slice key, comments = some slice → blogId = some key →
        (∀ items, slice.commentsByBlog (some key) ≠ Slot.array items) →
        (selectCommentsByBlogId comments blogId).1 = []) := by
  refine ⟨?_, ?_, ?_, ?_, ?_⟩
  · unfold selectCommentsByBlogId
    split
    · rfl
    · dsimp only
      split <;> rfl
  · intro slice key items hc hb hitems
    subst hc hb
    simp only [selectCommentsByBlogId, hitems]
    refine ⟨perm_sortItemsNewestFirst items, ?_, ?_⟩
    · rw [filterMap_sortItemsNewestFirst]
      exact sorted_sortNewestFirst _
    · intro records hrec
      subst hrec
      simp [sortItemsNewestFirst, filterMap_id_map_some, filter_isNone_map_some]
  · intro hb
    subst hb
    rfl
  · intro hc
    subst hc
    cases blogId <;> rfl
  · intro slice key hc hb hne
    subst hc hb
    cases hslot : slice.commentsByBlog (some key) with
    | array items => exact absurd hslot (hne items)
    | undefined => simp only [selectCommentsByBlogId, hslot]
    | object => simp only [selectCommentsByBlogId, hslot]

theorem selectCommentsByBlogId_sorted_witness :
    (storeWith [textRecord 1 "a", sampleRecord (some 2) none 50]).commentsByBlog (some 1) =
        Slot.array [some (textRecord 1 "a"), some (sampleRecord (some 2) none 50)] ∧
      (selectCommentsByBlogId
          (some (storeWith [textRecord 1 "a", sampleRecord (some 2) none 50])) (some 1)).1.Perm
        [some (textRecord 1 "a"), some (sampleRecord (some 2) none 50)] ∧
      (selectCommentsByBlogId
          (some (storeWith [textRecord 1 "a", sampleRecord (some 2) none 50])) (some 1)).1 =
        [some (sampleRecord (some 2) none 50), some (textRecord 1 "a")] ∧
      (selectCommentsByBlogId
          (some (storeWith [textRecord 1 "a", sampleRecord (some 2) none 50])) none).1 = [] ∧
      (selectCommentsByBlogId none (some 1)).1 = [] ∧
      (selectCommentsByBlogId
          (some (storeWith [textRecord 1 "a", sampleRecord (some 2) none 50])) (some 2)).1 =
        [] :=
  have h := selectCommentsByBlogId_sorted
    (some (storeWith [textRecord 1 "a", sampleRecord (some 2) none 50])) (some 1)
  ⟨by decide,
    (h.2.1 _ 1 _ rfl rfl (by decide)).1,
    by decide,
    (selectCommentsByBlogId_sorted
      (some (storeWith [textRecord 1 "a", sampleRecord (some 2) none 50])) none).2.2.1 rfl,
    (selectCommentsByBlogId_sorted none (some 1)).2.2.2.1 rfl,
    (selectCommentsByBlogId_sorted
      (some (storeWith [textRecord 1 "a", sampleRecord (some 2) none 50])) (some 2)).2.2.2.2
      (storeWith [textRecord 1 "a", sampleRecord (some 2) none 50]) 2 rfl rfl
      (fun items h => by
        have h' : Slot.undefined = Slot.array items := h
        cases h')⟩

/-! ## Routes of the frontend -/

/-- C24 on the code: an authenticated user with the role `user` opens a route that requires
the role `admin`, with no `redirectTo`. `PrivateRoute` navigates to "/admin", not to "/";
with the same requirement given as an array it navigates to "/". -/
theorem PrivateRoute_admin_redirect :
    signedInUser.isAuthenticated = true ∧ signedInUser.role = some "user" ∧
      PrivateRoute signedInUser (RequiredRole.one "admin") none =
        RouteOutcome.navigate "/admin" ∧
      PrivateRoute signedInUser (RequiredRole.many ["admin"]) none =
        RouteOutcome.navigate "/" := by
  refine ⟨rfl, rfl, by decide, by decide⟩

/-- An unauthenticated visitor is sent to "/login" once loading is over. -/
theorem PrivateRoute_login (auth : AuthState) (requiredRole : RequiredRole)
    (redirectTo : Option String) (hloading : auth.loading = false)
    (h : truthyMessage auth.token = none ∨ auth.isAuthenticated = false) :
    PrivateRoute auth requiredRole redirectTo = RouteOutcome.navigate "/login" := by
  unfold PrivateRoute
  rcases h with h | h <;> simp [hloading, h]

/-! ## Fetching the comments -/

/-- C25 on the code: the first run of the fetch effect after mount, for any non-empty
`blogId`, finds the ref equal to `blogId` and dispatches nothing. -/
theorem fetchEffect_first_run (blogId : Nat) :
    fetchEffect (mountCommentSection (some blogId)) (some blogId) =
      (mountCommentSection (some blogId), none) := by
  simp [fetchEffect, mountCommentSection]

/-- A run of the fetch effect for a `blogId` other than the one in the ref dispatches
`fetchComments` for it and stores it in the ref. -/
theorem fetchEffect_changed (ref : FetchEffectState) (blogId : Nat)
    (h : ref.prevBlogId ≠ some blogId) :
    fetchEffect ref (some blogId) = ({ prevBlogId := some blogId }, some blogId) := by
  have h' : (some blogId != ref.prevBlogId) = true := by
    simpa [bne_iff_ne] using fun e => h e.symm
  simp [fetchEffect, h']

/-- C26 on the code: after the `fetchComments` thunk has packaged a body of the shape
`getCommentsByPost` sends and `fetchComments.fulfilled` has stored it, the value under the
blog id is the body object, not an array, and `selectCommentsByBlogId` returns the empty
list, whatever comments the body carries. -/
theorem fetched_comments_not_selected (s : CommentsState) (blogId : Nat) (body : CommentsBody)
    (now : Int) :
    ∃ s', commentReducer s (fetchCommentsCompleted (some blogId) body now) = some s' ∧
      s'.commentsByBlog (some blogId) = Slot.object ∧
      (selectCommentsByBlogId (some s') (some blogId)).1 = [] := by
  refine ⟨_, rfl, ?_, ?_⟩
  · simp
  · simp [selectCommentsByBlogId]

/-! ## Liking in the store -/

/-- On a list of records the like reducer puts `action.payload.comment` in the place of every
record with the id. -/
theorem replaceById_records (l : List StoreComment) (commentId : Option Nat)
    (replacement : Option StoreComment) :
    replaceById (Slot.array (l.map some)) commentId replacement =
      some (Slot.array (l.map (fun comment =>
        if comment._id == commentId then replacement else some comment))) := by
  simp [replaceById, collect_map_some_id]

/-- C27 on the code: the list of blog 1 holds comments 1 and 2. After `likeComment.fulfilled`
for comment 1, and likewise after `unlikeComment.fulfilled`, with the payload the thunk
produces, the list has the same length and comment 2 is unchanged, but the place of comment 1
holds `undefined`. -/
theorem like_fulfilled_erases_record :
    (storeWith [textRecord 1 "a", textRecord 2 "b"]).commentsByBlog (some 1) =
        Slot.array [some (textRecord 1 "a"), some (textRecord 2 "b")] ∧
      (commentReducer (storeWith [textRecord 1 "a", textRecord 2 "b"])
          (likeCommentCompleted (some 1) (some 1))).map (fun s => s.commentsByBlog (some 1)) =
        some (Slot.array [none, some (textRecord 2 "b")]) ∧
      (commentReducer (storeWith [textRecord 1 "a", textRecord 2 "b"])
          (unlikeCommentCompleted (some 1) (some 1))).map
          (fun s => s.commentsByBlog (some 1)) =
        some (Slot.array [none, some (textRecord 2 "b")]) := by
  refine ⟨by decide, by decide, by decide⟩

/-! ## Deleting a blog in the store -/

/-- When the thunk was invoked with the id string, `deleteBlog.fulfilled` removes no blog
that has an `_id` and keeps an open blog that has one. -/
theorem deleteBlogFulfilled_id (state : BlogsState) (blogId : Nat)
    (hids : ∀ blog ∈ state.blogs, blog._id ≠ none) :
    (deleteBlogFulfilled state (DeleteBlogArg.id blogId)).blogs = state.blogs := by
  simp only [deleteBlogFulfilled, DeleteBlogArg.blogId]
  rw [List.filter_eq_self]
  intro blog hblog
  simpa using hids blog hblog

/-- C30 on the code: the store holds blogs 1 and 2, blog 1 being the current one. After
`deleteBlog.fulfilled` for the thunk invoked as `deleteBlog(1)`, blog 1 is still in
`state.blogs` and is still the current blog. -/
theorem deleteBlog_keeps_blog :
    (deleteBlogFulfilled twoBlogs (DeleteBlogArg.id 1)).blogs =
        [{ _id := some 1, title := "first" }, { _id := some 2, title := "second" }] ∧
      (deleteBlogFulfilled twoBlogs (DeleteBlogArg.id 1)).currentBlog =
        some { _id := some 1, title := "first" } ∧
      (deleteBlogFulfilled twoBlogs (DeleteBlogArg.id 1)).status = "succeeded" := by
  refine ⟨by decide, by decide, by decide⟩

end Blog
